import Mathlib

/-!
Verification of the printsrc library (src/printsrc.go): a printer that renders
Go values as Go source expressions.  The development shallowly embeds the
package: Go reflect types become the inductive `RType`, reflect values become
`RValue` (with pointers represented as indices into an explicit heap, so that
self-referential values are expressible), and the stateful printing functions
of printsrc.go become pure functions threading an explicit `PState`.

Recursion in the printer is bounded by the source depth counter (`maxDepth`);
the Lean functions additionally carry a structural fuel argument so that every
definition is a total, kernel-computable function.  The fuel is generous
enough (`printFuel`) that it is never exhausted before the depth guard of the
source fires.

Functions of the Go standard library used by the source (fmt verb `%#v`,
`path.Base`, `strconv` quoting, `reflect.Type.String`, `sort.Slice`) are not
part of the repository; they are modelled here by Lean functions marked as
such in their doc comments.
-/

set_option maxRecDepth 10000

namespace Printsrc

/-- Single-quote character, used to build error message strings. -/
def sq : String := String.singleton (Char.ofNat 39)

/-- Go reflect kinds of non-composite values, as distinguished by
printsrc.go (`isPrimitive` lists exactly these kinds). -/
inductive PrimKind where
  | kbool | kstring
  | kint | kint8 | kint16 | kint32 | kint64
  | kuint | kuint8 | kuint16 | kuint32 | kuint64 | kuintptr
  | kfloat32 | kfloat64
  | kcomplex64 | kcomplex128
  deriving DecidableEq, Repr

/-- Model of Go reflect.Type.  A named type stores its name and defining
package path (empty for predeclared types such as `int`); structural types
store their components and have an empty name.  Struct fields carry
(name, exported flag, field type); the exported flag models
`reflect.StructField.PkgPath == ""`. -/
inductive RType where
  | prim (k : PrimKind) (tname pkgPath : String)
  | ptr (elem : RType) (tname pkgPath : String)
  | slice (elem : RType) (tname pkgPath : String)
  | arr (size : Nat) (elem : RType) (tname pkgPath : String)
  | mapT (key elem : RType) (tname pkgPath : String)
  | structT (tname pkgPath : String) (fields : List (String × Bool × RType))
  | iface (tname pkgPath : String) (numMethods : Nat)
  | chanT (elem : RType) (tname pkgPath : String)
  | funcT (tname pkgPath : String)
  | uptrT (tname pkgPath : String)

mutual

/-- Structural equality of type descriptors, modelling Go interface equality
on reflect.Type values (two reflect.Type values are == exactly when they
describe the same type). -/
def RType.beq : RType → RType → Bool
  | .prim k n p, .prim k2 n2 p2 => k == k2 && n == n2 && p == p2
  | .ptr e n p, .ptr e2 n2 p2 => RType.beq e e2 && n == n2 && p == p2
  | .slice e n p, .slice e2 n2 p2 => RType.beq e e2 && n == n2 && p == p2
  | .arr s e n p, .arr s2 e2 n2 p2 => s == s2 && RType.beq e e2 && n == n2 && p == p2
  | .mapT k e n p, .mapT k2 e2 n2 p2 =>
      RType.beq k k2 && RType.beq e e2 && n == n2 && p == p2
  | .structT n p fs, .structT n2 p2 fs2 => n == n2 && p == p2 && RType.beqFields fs fs2
  | .iface n p m, .iface n2 p2 m2 => n == n2 && p == p2 && m == m2
  | .chanT e n p, .chanT e2 n2 p2 => RType.beq e e2 && n == n2 && p == p2
  | .funcT n p, .funcT n2 p2 => n == n2 && p == p2
  | .uptrT n p, .uptrT n2 p2 => n == n2 && p == p2
  | _, _ => false

/-- Pointwise equality of struct field lists. -/
def RType.beqFields : List (String × Bool × RType) → List (String × Bool × RType) → Bool
  | [], [] => true
  | (n, e, t) :: fs, (n2, e2, t2) :: fs2 =>
      n == n2 && e == e2 && RType.beq t t2 && RType.beqFields fs fs2
  | _, _ => false

end

/-- Name of a type (reflect.Type.Name); empty for structural (unnamed) types. -/
def RType.tnameOf : RType → String
  | .prim _ n _ => n
  | .ptr _ n _ => n
  | .slice _ n _ => n
  | .arr _ _ n _ => n
  | .mapT _ _ n _ => n
  | .structT n _ _ => n
  | .iface n _ _ => n
  | .chanT _ n _ => n
  | .funcT n _ => n
  | .uptrT n _ => n

/-- Package path of a type (reflect.Type.PkgPath); empty for predeclared and
structural types. -/
def RType.pkgPathOf : RType → String
  | .prim _ _ p => p
  | .ptr _ _ p => p
  | .slice _ _ p => p
  | .arr _ _ _ p => p
  | .mapT _ _ _ p => p
  | .structT _ p _ => p
  | .iface _ p _ => p
  | .chanT _ _ p => p
  | .funcT _ p => p
  | .uptrT _ p => p

/-- Element type of a pointer, slice, array, map or channel type
(reflect.Type.Elem).  Unreachable cases return a dummy. -/
def RType.elemType : RType → RType
  | .ptr e _ _ => e
  | .slice e _ _ => e
  | .arr _ e _ _ => e
  | .mapT _ e _ _ => e
  | .chanT e _ _ => e
  | t => t

/-- Key type of a map type (reflect.Type.Key). -/
def RType.keyType : RType → RType
  | .mapT k _ _ _ => k
  | t => t

/-- Field list of a struct type; empty for other types. -/
def RType.structFields : RType → List (String × Bool × RType)
  | .structT _ _ fs => fs
  | _ => []

/-- Whether the type has interface kind (reflect.Kind == Interface). -/
def RType.isIfaceKind : RType → Bool
  | .iface _ _ _ => true
  | _ => false

/-- Whether the type has kind Float64 (named float64 types included). -/
def RType.isFloat64Kind : RType → Bool
  | .prim .kfloat64 _ _ => true
  | _ => false

/-- Primitive kind of the type, if it has one. -/
def RType.primKind : RType → Option PrimKind
  | .prim k _ _ => some k
  | _ => none

/-- Model of a Go floating-point number for the purposes of this printer:
the three special values and finite values as exact rationals (binary
floating point numbers are dyadic rationals). -/
inductive GoFloat where
  | nan
  | inf (negative : Bool)
  | finite (q : ℚ)
  deriving DecidableEq

/-- Model of reflect.Value.  Pointers store an index into an explicit heap
(`none` models a nil pointer), which makes self-referential values
representable.  Nil slices and maps are `none`; interface values carry their
dynamic value (`none` models a nil interface, whose Elem() is invalid). -/
inductive RValue where
  | invalid
  | vbool (t : RType) (b : Bool)
  | vstr (t : RType) (s : String)
  | vint (t : RType) (n : Int)
  | vuint (t : RType) (n : Nat)
  | vfloat (t : RType) (f : GoFloat)
  | vcomplex (t : RType) (re im : GoFloat)
  | vptr (t : RType) (addr : Option Nat)
  | vslice (t : RType) (elems : Option (List RValue))
  | varray (t : RType) (elems : List RValue)
  | vmap (t : RType) (entries : Option (List (RValue × RValue)))
  | vstruct (t : RType) (fields : List RValue)
  | viface (t : RType) (inner : Option RValue)
  | vchan (t : RType) (nonNil : Bool)
  | vfunc (t : RType) (nonNil : Bool)
  | vuptr (t : RType) (nonNil : Bool)

/-- A heap: the pointed-to values, indexed by pointer addresses. -/
abbrev Heap := List RValue

/-- Validity of a value (reflect.Value.IsValid). -/
def RValue.isValid : RValue → Bool
  | .invalid => false
  | _ => true

/-- Type of a value (reflect.Value.Type).  Calling Type on an invalid value
panics in Go; the model returns a dummy type in that unreachable case. -/
def RValue.typeOf : RValue → RType
  | .invalid => .iface "" "" 0
  | .vbool t _ => t
  | .vstr t _ => t
  | .vint t _ => t
  | .vuint t _ => t
  | .vfloat t _ => t
  | .vcomplex t _ _ => t
  | .vptr t _ => t
  | .vslice t _ => t
  | .varray t _ => t
  | .vmap t _ => t
  | .vstruct t _ => t
  | .viface t _ => t
  | .vchan t _ => t
  | .vfunc t _ => t
  | .vuptr t _ => t

/-- Whether the value has one of the kinds printsrc.go calls primitive
(isPrimitive in the source lists bool, string, the integer kinds, the
unsigned kinds, the float kinds and the complex kinds). -/
def RValue.isPrimitiveKind : RValue → Bool
  | .vbool _ _ => true
  | .vstr _ _ => true
  | .vint _ _ => true
  | .vuint _ _ => true
  | .vfloat _ _ => true
  | .vcomplex _ _ _ => true
  | _ => false

/-- Accessor modelling reflect.Value.Bool. -/
def RValue.boolVal : RValue → Bool
  | .vbool _ b => b
  | _ => false

/-- Accessor modelling reflect.Value.String. -/
def RValue.strVal : RValue → String
  | .vstr _ s => s
  | _ => ""

/-- Accessor modelling reflect.Value.Int. -/
def RValue.intVal : RValue → Int
  | .vint _ n => n
  | _ => 0

/-- Accessor modelling reflect.Value.Uint. -/
def RValue.uintVal : RValue → Nat
  | .vuint _ n => n
  | _ => 0

/-- Accessor modelling reflect.Value.Float. -/
def RValue.floatVal : RValue → GoFloat
  | .vfloat _ f => f
  | _ => .finite 0

/-- Slice or array element list; a nil slice yields the empty list. -/
def RValue.elemsOf : RValue → List RValue
  | .vslice _ (some l) => l
  | .varray _ l => l
  | _ => []

/-- Map entry list in enumeration order; a nil map yields the empty list. -/
def RValue.entriesOf : RValue → List (RValue × RValue)
  | .vmap _ (some l) => l
  | _ => []

/-- Struct field value list. -/
def RValue.fieldsOf : RValue → List RValue
  | .vstruct _ l => l
  | _ => []

/-- Nil check modelling reflect.Value.IsNil for pointers, slices, maps and
interfaces (the kinds printIfNil switches on). -/
def RValue.isNilV : RValue → Bool
  | .vptr _ none => true
  | .vslice _ none => true
  | .vmap _ none => true
  | .viface _ none => true
  | _ => false

mutual

/-- Model of reflect.Value.IsZero: false, empty string, numeric zero,
nil reference, or (for arrays and structs) all components zero.  A negative
float zero is not zero for IsZero (its bits are non-zero); the model has no
negative zero.  Invalid values never reach IsZero in the source. -/
def isZero : RValue → Bool
  | .invalid => false
  | .vbool _ b => !b
  | .vstr _ s => s == ""
  | .vint _ n => n == 0
  | .vuint _ n => n == 0
  | .vfloat _ f => f == .finite 0
  | .vcomplex _ re im => re == .finite 0 && im == .finite 0
  | .vptr _ a => a.isNone
  | .vslice _ e => e.isNone
  | .varray _ l => isZeroList l
  | .vmap _ e => e.isNone
  | .vstruct _ l => isZeroList l
  | .viface _ i => i.isNone
  | .vchan _ nn => !nn
  | .vfunc _ nn => !nn
  | .vuptr _ nn => !nn

/-- All values in the list are zero. -/
def isZeroList : List RValue → Bool
  | [] => true
  | v :: l => isZero v && isZeroList l

end

/-- Equality of Go floats under ==: NaN is unequal to everything, including
itself. -/
def goFloatEq : GoFloat → GoFloat → Bool
  | .nan, _ => false
  | _, .nan => false
  | .inf a, .inf b => a == b
  | .inf _, .finite _ => false
  | .finite _, .inf _ => false
  | .finite a, .finite b => a == b

/-- Ordering of Go floats under <: NaN is unordered with everything. -/
def goFloatLt : GoFloat → GoFloat → Bool
  | .nan, _ => false
  | _, .nan => false
  | .inf true, .inf true => false
  | .inf true, _ => true
  | .inf false, _ => false
  | .finite _, .inf true => false
  | .finite _, .inf false => true
  | .finite a, .finite b => decide (a < b)

mutual

/-- Model of Go == on values of comparable type, used for map key lookup
(reflect.Value.MapIndex finds the entry whose key is == to the argument).
For a NaN float key nothing is ==, not even the key itself. -/
def goEq : RValue → RValue → Bool
  | .vbool _ a, .vbool _ b => a == b
  | .vstr _ a, .vstr _ b => a == b
  | .vint _ a, .vint _ b => a == b
  | .vuint _ a, .vuint _ b => a == b
  | .vfloat _ a, .vfloat _ b => goFloatEq a b
  | .vcomplex _ a b, .vcomplex _ c d => goFloatEq a c && goFloatEq b d
  | .vptr _ a, .vptr _ b => a == b
  | .varray _ l, .varray _ m => goEqList l m
  | .vstruct _ l, .vstruct _ m => goEqList l m
  | .viface _ none, .viface _ none => true
  | .viface _ (some x), .viface _ (some y) => RType.beq x.typeOf y.typeOf && goEq x y
  | _, _ => false

/-- Pointwise Go == on value lists. -/
def goEqList : List RValue → List RValue → Bool
  | [], [] => true
  | x :: l, y :: m => goEq x y && goEqList l m
  | _, _ => false

end

/-- Model of reflect.Value.MapIndex composed with MapKeys: look the key up in
the entry list by Go ==; a missing key (possible for NaN keys) yields the
invalid value, as MapIndex yields the zero reflect.Value. -/
def mapIndex (entries : List (RValue × RValue)) (key : RValue) : RValue :=
  match entries.find? (fun e => goEq e.1 key) with
  | some e => e.2
  | none => .invalid

/-- Model of Go path.Base: the last element of a slash-separated path
(trailing slashes removed; "." for the empty path, "/" for all-slash
paths).  Implemented over the character list. -/
def pathBase (p : String) : String :=
  if p = "" then "."
  else
    let cs := p.toList.reverse.dropWhile (fun c => c == '/')
    if cs.isEmpty then "/"
    else String.mk (cs.takeWhile (fun c => !(c == '/'))).reverse

/-- Hexadecimal digits of a natural number, lowercase (models strconv). -/
def natToHex (n : Nat) : String := String.mk (Nat.toDigits 16 n)

/-- Model of the strconv quoting used by the fmt verb `%#v` on strings:
double-quoted with backslash escapes for quote, backslash and the common
control characters; other control and non-ASCII characters are shown as
hexadecimal escapes (an approximation of strconv.Quote, exact on the
printable ASCII strings used in this development). -/
def goQuoteChar (c : Char) : String :=
  if c = '"' then "\\\""
  else if c = '\\' then "\\\\"
  else if c = '\t' then "\\t"
  else if c = '\n' then "\\n"
  else if c = '\r' then "\\r"
  else if 32 ≤ c.toNat && c.toNat < 127 then String.singleton c
  else "\\x" ++ natToHex c.toNat

/-- Model of strconv.Quote as used by `%#v` on a string value. -/
def goQuote (s : String) : String :=
  "\"" ++ String.join (s.toList.map goQuoteChar) ++ "\""

/-- Smallest exponent k such that d divides 10^k, searched up to 400
(sufficient for all dyadic denominators of double-precision floats). -/
def decExp (d : Nat) : Nat :=
  ((List.range 400).find? (fun k => 10 ^ k % d == 0)).getD 0

/-- Model of the decimal rendering of a finite float by the fmt verb `%#v`
(shortest decimal form; exponent notation of very small or large magnitudes
is not reproduced, which no claim in this development depends on). -/
def floatLit (q : ℚ) : String :=
  if q < 0 then "-" ++ floatLitAbs (-q) else floatLitAbs q
where
  /-- Decimal rendering of a non-negative rational with power-of-ten-divisible
  denominator. -/
  floatLitAbs (q : ℚ) : String :=
    if q.den = 1 then toString q.num
    else
      let k := decExp q.den
      let scaled := q.num.natAbs * (10 ^ k / q.den)
      let ip := scaled / 10 ^ k
      let frac := scaled % 10 ^ k
      let fracDigits := Nat.toDigits 10 frac
      let padded := List.replicate (k - fracDigits.length) '0' ++ fracDigits
      let trimmed := (padded.reverse.dropWhile (fun c => c == '0')).reverse
      if trimmed.isEmpty then toString ip
      else toString ip ++ "." ++ String.mk trimmed

/-- Rendering of the finite part of a complex number by `%#v`:
parenthesised real and signed imaginary part followed by i. -/
def complexLit (re im : GoFloat) : String :=
  let reS := match re with
    | .finite q => floatLit q
    | _ => ""
  let imS := match im with
    | .finite q => if q < 0 then "-" ++ floatLit (-q) else "+" ++ floatLit q
    | _ => ""
  "(" ++ reS ++ imS ++ "i)"

/-- Model of the fmt verb `%#v` applied to a reflect.Value of primitive kind
(fmt formats the concrete value a reflect.Value holds): bools and signed
integers in their decimal form, unsigned integers in 0x hexadecimal form,
strings quoted, finite floats in decimal form. -/
def goLiteral : RValue → String
  | .vbool _ b => if b then "true" else "false"
  | .vstr _ s => goQuote s
  | .vint _ n => toString n
  | .vuint _ n => "0x" ++ natToHex n
  | .vfloat _ (.finite q) => floatLit q
  | .vfloat _ _ => ""
  | .vcomplex _ re im => complexLit re im
  | _ => ""

/-- Model of reflect.Type.String, used only inside error messages: named
types are shown qualified by the last element of their package path
(approximating the package name), structural types by their Go syntax.
Unnamed struct and non-empty interface types are abbreviated, which no
claim depends on. -/
def typeGoString : RType → String
  | .prim _ n p => if p = "" then n else pathBase p ++ "." ++ n
  | .ptr e n p => if n = "" then "*" ++ typeGoString e else pathBase p ++ "." ++ n
  | .slice e n p => if n = "" then "[]" ++ typeGoString e else pathBase p ++ "." ++ n
  | .arr s e n p =>
      if n = "" then "[" ++ toString s ++ "]" ++ typeGoString e
      else pathBase p ++ "." ++ n
  | .mapT k e n p =>
      if n = "" then "map[" ++ typeGoString k ++ "]" ++ typeGoString e
      else pathBase p ++ "." ++ n
  | .structT n p _ =>
      if n = "" then "struct \x7b...\x7d"
      else if p = "" then n else pathBase p ++ "." ++ n
  | .iface n p m =>
      if n = "" then (if m = 0 then "interface \x7b\x7d" else "interface \x7b...\x7d")
      else if p = "" then n else pathBase p ++ "." ++ n
  | .chanT e n p => if n = "" then "chan " ++ typeGoString e else pathBase p ++ "." ++ n
  | .funcT n p => if n = "" then "func()" else pathBase p ++ "." ++ n
  | .uptrT n p => if n = "" then "unsafe.Pointer" else pathBase p ++ "." ++ n

/-- The predeclared bool type (printsrc.go tBool). -/
def tBool : RType := .prim .kbool "bool" ""

/-- The predeclared string type (printsrc.go tString). -/
def tString : RType := .prim .kstring "string" ""

/-- The predeclared int type (printsrc.go tInt). -/
def tInt : RType := .prim .kint "int" ""

/-- The predeclared float64 type (printsrc.go tFloat64). -/
def tFloat64 : RType := .prim .kfloat64 "float64" ""

/-- The predeclared complex128 type (printsrc.go tComplex128). -/
def tComplex128 : RType := .prim .kcomplex128 "complex128" ""

/-- Default type for an untyped constant (printsrc.go defaultType), keyed on
the kind of the value; every unsigned kind also defaults to int, as a uint
printed as a literal acts like any other integer literal. -/
def defaultType : RValue → RType
  | .vbool _ _ => tBool
  | .vstr _ _ => tString
  | .vint _ _ => tInt
  | .vuint _ _ => tInt
  | .vfloat _ _ => tFloat64
  | .vcomplex _ _ _ => tComplex128
  | _ => tInt

mutual

/-- Model of printsrc.go oneLineType: strings and pointers are never
one-line, structs of up to two one-line fields are, otherwise primitive
kinds are. -/
def oneLineType : RType → Bool
  | .prim .kstring _ _ => false
  | .ptr _ _ _ => false
  | .structT _ _ [] => true
  | .structT _ _ [(_, _, t)] => oneLineType t
  | .structT _ _ [(_, _, t), (_, _, u)] => oneLineType t && oneLineType u
  | .structT _ _ _ => false
  | .prim _ _ _ => true
  | _ => false

end

/-- Whether a list has at most n elements (used to mirror length guards). -/
def lenLe (l : List RValue) (n : Nat) : Bool := l.length ≤ n

mutual

/-- Model of printsrc.go oneLineValue: a value prints on one line when its
type is one-line, it is zero, it is a short string, a short sequence of
one-line content, or a small map of one-line content.  For a singleton map
the source inspects MapKeys()[0] and MapIndex of it; MapIndex of a key that
is not == to itself (NaN) is invalid, and oneLineValue of an invalid value
is false, which the singleton case inlines. -/
def oneLineValue (v : RValue) : Bool :=
  if oneLineType v.typeOf then true
  else if isZero v then true
  else match v with
    | .vstr _ s => s.length ≤ 20
    | .vslice _ (some []) => true
    | .vslice t (some (x :: rest)) =>
        (rest.isEmpty && oneLineValue x) ||
        (lenLe (x :: rest) 10 && oneLineType t.elemType)
    | .varray _ [] => true
    | .varray t (x :: rest) =>
        (rest.isEmpty && oneLineValue x) ||
        (lenLe (x :: rest) 10 && oneLineType t.elemType)
    | .vmap _ (some []) => true
    | .vmap t (some ((k0, v0) :: rest)) =>
        (rest.isEmpty && oneLineValue k0 &&
          (if goEq k0 k0 then oneLineValue v0 else false)) ||
        (rest.length + 1 ≤ 5 && oneLineType t.keyType && oneLineType t.elemType)
    | _ => false

end

/-- Insertion into the reversed sorted prefix, moving the new element left
past exactly the elements it is less than; this mirrors the inner loop of
the Go insertion sort (swap while less(v[j], v[j-1])). -/
def insertRev {α : Type} (less : α → α → Bool) (a : α) : List α → List α
  | [] => [a]
  | b :: rest => if less a b then b :: insertRev less a rest else a :: b :: rest

/-- Model of sort.Slice as used on map keys.  Go uses an unstable
comparison sort (insertion sort below a small length threshold); any
comparison sort produces the same result under a comparator that strictly
totally orders the elements, and on slices of at most two elements Go
performs exactly this insertion sort. -/
def sortSlice {α : Type} (less : α → α → Bool) (l : List α) : List α :=
  (l.foldl (fun accRev x => insertRev less x accRev) []).reverse

/-- Type of wrapped custom print functions (printsrc.go printFunc): the
wrapper produced by processPrintFunc returns the rendered text and an
optional error. -/
abbrev PrintFunc := RValue → String × Option String

/-- Type of wrapped less functions (printsrc.go lessFunc). -/
abbrev LessFunc := RValue → RValue → Bool

/-- Model of the printsrc.go Printer: the destination package path, the
table of imports, and the registries of custom printers and less functions.
The Go maps keyed by reflect.Type are modelled as association lists looked
up with type equality. -/
structure Printer where
  pkgPath : String
  imports : List (String × String)
  printers : List (RType × PrintFunc)
  lessFuncs : List (RType × LessFunc)

/-- Model of Printer.PackageIdentifier: empty for the home package, the
registered identifier if present, and otherwise the last component of
the import path. -/
def Printer.PackageIdentifier (p : Printer) (pk : String) : String :=
  if pk = p.pkgPath then ""
  else match p.imports.find? (fun q => q.1 == pk) with
    | some q => q.2
    | none => pathBase pk

/-- Lookup in the custom printer registry (p.printers[v.Type()]). -/
def lookupPrinter (p : Printer) (t : RType) : Option PrintFunc :=
  match p.printers.find? (fun q => RType.beq q.1 t) with
  | some q => some q.2
  | none => none

/-- Model of Printer.getLessFunc: a registered less function for the type
if any, otherwise a less function derived from the kind (bool, string,
signed, unsigned or float kinds), otherwise none. -/
def Printer.getLessFunc (p : Printer) (t : RType) : Option LessFunc :=
  match p.lessFuncs.find? (fun q => RType.beq q.1 t) with
  | some q => some q.2
  | none =>
    match t.primKind with
    | some .kbool => some (fun v1 v2 => !v1.boolVal && v2.boolVal)
    | some .kstring => some (fun v1 v2 => decide (v1.strVal < v2.strVal))
    | some .kint | some .kint8 | some .kint16 | some .kint32 | some .kint64 =>
        some (fun v1 v2 => decide (v1.intVal < v2.intVal))
    | some .kuint | some .kuint8 | some .kuint16 | some .kuint32
    | some .kuint64 | some .kuintptr =>
        some (fun v1 v2 => decide (v1.uintVal < v2.uintVal))
    | some .kfloat32 | some .kfloat64 =>
        some (fun v1 v2 => goFloatLt v1.floatVal v2.floatVal)
    | _ => none

/-- Model of the printsrc.go state: the sticky error slot, the output sink
contents, the recursion depth counter and the indentation counter.  The
printer instance and the sink are passed separately. -/
structure PState where
  err : Option String
  out : String
  depth : Nat
  tabDepth : Nat
  deriving DecidableEq

/-- Fail after this many recursive calls to print (printsrc.go maxDepth). -/
def maxDepth : Nat := 100

/-- Error message of the depth guard in print. -/
def depthErr : String := "max recursion depth exceeded (probable circularity)"

/-- Error message for the unrepresentable kinds (chan, func, unsafe
pointer). -/
def cannotPrintErr (t : RType) : String :=
  "cannot print values of type " ++ typeGoString t ++ " as source"

/-- Error message of sprintType for an unnamed type it cannot render. -/
def unnamedTypeErr (t : RType) : String :=
  "can" ++ sq ++ "t handle unnamed type " ++ typeGoString t

/-- Error message of printStruct for a non-zero struct without printable
fields. -/
def structNoFieldsErr (t : RType) : String :=
  "non-zero " ++ typeGoString t ++
    " struct has no printable fields; call Printer.RegisterPrinter(" ++
    typeGoString t ++ "\x7b\x7d, ...)"

/-- Model of state.printString: append to the sink unless the error slot is
set.  The modelled sink (a string buffer) never fails, so the write error
assigned by the source line `_, s.err = io.WriteString(s.w, str)` is always
nil here. -/
def printString (str : String) (s : PState) : PState :=
  if s.err = none then { s with out := s.out ++ str } else s

/-- Model of state.sprintType: render a type name.  Named types render
directly (via the import table for foreign packages); structural types
recurse through their syntax; any other unnamed type sets the error slot
unconditionally, exactly as the source assignment `s.err = fmt.Errorf(...)`
does. -/
def sprintType (p : Printer) : RType → PState → String × PState
  | t, s =>
    if t.tnameOf ≠ "" then
      if t.pkgPathOf = "" then (typeGoString t, s)
      else
        let ident := p.PackageIdentifier t.pkgPathOf
        if ident = "" then (t.tnameOf, s)
        else (ident ++ "." ++ t.tnameOf, s)
    else match t with
      | .ptr e _ _ => let (ts, s1) := sprintType p e s; ("*" ++ ts, s1)
      | .slice e _ _ => let (ts, s1) := sprintType p e s; ("[]" ++ ts, s1)
      | .arr n e _ _ =>
          let (ts, s1) := sprintType p e s
          ("[" ++ toString n ++ "]" ++ ts, s1)
      | .mapT k e _ _ =>
          let (ks, s1) := sprintType p k s
          let (es, s2) := sprintType p e s1
          ("map[" ++ ks ++ "]" ++ es, s2)
      | .iface _ _ 0 => ("interface\x7b\x7d", s)
      | t => ("", { s with err := some (unnamedTypeErr t) })

/-- Equality of a type against the optional imputed type (Go compares
reflect.Type values with ==, where a nil imputed type equals nothing). -/
def typesEqOpt (t : RType) : Option RType → Bool
  | some u => RType.beq t u
  | none => false

/-- Whether the imputed type is absent or of interface kind. -/
def impNilOrIface : Option RType → Bool
  | none => true
  | some t => t.isIfaceKind

/-- Model of state.printIfNil: for a nil pointer, slice, map or interface
value, print `nil` when the imputed type matches, and a conversion of nil
to the value type otherwise (with the extra parentheses required around a
pointer type).  Returns whether the value was handled. -/
def printIfNil (p : Printer) (v : RValue) (imputedType : Option RType) (s : PState) :
    Bool × PState :=
  match v with
  | .vptr _ _ | .vslice _ _ | .vmap _ _ | .viface _ _ =>
    if v.isNilV then
      if typesEqOpt v.typeOf imputedType then (true, printString "nil" s)
      else
        let (ts, s1) := sprintType p v.typeOf s
        if ts.front = '*' then (true, printString ("(" ++ ts ++ ")(nil)") s1)
        else (true, printString (ts ++ "(nil)") s1)
    else (false, s)
  | _ => (false, s)

/-- Model of state.printPrimitiveLiteral: format the value with `%#v`,
append `.0` to a float64 literal that would otherwise look like an integer,
and wrap in a conversion to the concrete type exactly when that type is not
the default type of the literal and the imputed type is absent or of
interface kind. -/
def printPrimitiveLiteral (p : Printer) (v : RValue) (imputedType : Option RType)
    (s : PState) : PState :=
  let vs0 := goLiteral v
  let vs := if v.typeOf.isFloat64Kind && !(vs0.toList.any (fun c => c == '.' || c == 'e'))
            then vs0 ++ ".0" else vs0
  if !(RType.beq v.typeOf (defaultType v)) && impNilOrIface imputedType then
    let (ts, s1) := sprintType p v.typeOf s
    printString (ts ++ "(" ++ vs ++ ")") s1
  else printString vs s

/-- Model of printsrc.go specialFloatString: the call form for NaN and the
infinities, empty for finite values. -/
def specialFloatString : GoFloat → String
  | .nan => "math.NaN()"
  | .inf false => "math.Inf(1)"
  | .inf true => "math.Inf(-1)"
  | .finite _ => ""

/-- Model of state.printFloat: finite values go through the primitive
literal path; NaN and the infinities render as their call form, wrapped in
a conversion whenever the concrete type is not float64. -/
def printFloat (p : Printer) (v : RValue) (imputedType : Option RType) (s : PState) :
    PState :=
  let fs := specialFloatString v.floatVal
  if fs = "" then printPrimitiveLiteral p v imputedType s
  else if RType.beq v.typeOf tFloat64 then printString fs s
  else
    let (ts, s1) := sprintType p v.typeOf s
    printString (ts ++ "(" ++ fs ++ ")") s1

/-- Model of state.printComplex: if either component is special the value
renders as a complex(...) call of the special forms (a component that is
finite contributes an empty string, as in the source), wrapped in a
conversion whenever the concrete type is not complex128; otherwise the
primitive literal path is used. -/
def printComplex (p : Printer) (v : RValue) (imputedType : Option RType) (s : PState) :
    PState :=
  match v with
  | .vcomplex t re im =>
    let rs := specialFloatString re
    let is := specialFloatString im
    if rs = "" && is = "" then printPrimitiveLiteral p v imputedType s
    else
      let vs := "complex(" ++ rs ++ ", " ++ is ++ ")"
      if !(RType.beq t tComplex128) then
        let (ts, s1) := sprintType p t s
        printString (ts ++ "(" ++ vs ++ ")") s1
      else printString vs s
  | _ => s

/-- Model of the printPrefix closure inside printSeq: a newline followed by
one tab per current indentation level. -/
def printPrefix (s : PState) : PState :=
  (List.range s.tabDepth).foldl (fun st _ => printString "\t" st) (printString "\n" s)

/-- Model of state.printSeq: braces around either a single-line
comma-separated sequence or a multi-line sequence with every element on its
own indented line and terminated by a comma. -/
def printSeq (multiline : Bool) (n : Nat) (printElem : Nat → PState → PState)
    (s : PState) : PState :=
  let s0 := printString "\x7b" s
  if multiline then
    let s1 := { s0 with tabDepth := s0.tabDepth + 1 }
    let s2 := (List.range n).foldl
      (fun st i => printString "," (printElem i (printPrefix st))) s1
    let s3 := { s2 with tabDepth := s2.tabDepth - 1 }
    printString "\x7d" (printPrefix s3)
  else
    let s2 := (List.range n).foldl
      (fun st i => printElem i (if 0 < i then printString ", " st else st)) s0
    printString "\x7d" s2

/-- Exported flag of field i of a struct type. -/
def fieldExportedAt (t : RType) (i : Nat) : Bool :=
  ((t.structFields.getD i ("", false, tInt)).2.1)

/-- Name of field i of a struct type. -/
def fieldNameAt (t : RType) (i : Nat) : String :=
  ((t.structFields.getD i ("", false, tInt)).1)

/-- Declared type of field i of a struct type. -/
def fieldTypeAt (t : RType) (i : Nat) : RType :=
  ((t.structFields.getD i ("", false, tInt)).2.2)

/-- Indices of the fields printStruct emits: selectable (exported, or any
field when the struct is defined in the destination package) and currently
non-zero. -/
def emittableInds (p : Printer) (t : RType) (fieldVals : List RValue) : List Nat :=
  (List.range t.structFields.length).filter (fun i =>
    (t.pkgPathOf == p.pkgPath || fieldExportedAt t i) &&
    !(isZero (fieldVals.getD i .invalid)))

mutual

/-- Model of state.print, the main dispatch of printsrc.go: sticky-error
short circuit, depth guard, nil for invalid values, custom printers, then
dispatch on the kind of the value.  The extra fuel argument only makes the
recursion structural; the source recursion is bounded by the depth guard,
which fires long before the fuel runs out when printing starts from depth
zero. -/
def print (p : Printer) (heap : Heap) (fuel : Nat) (v : RValue)
    (imputedType : Option RType) (elide : Bool) (s : PState) : PState :=
  if s.err ≠ none then s
  else if s.depth > maxDepth then { s with err := some depthErr }
  else match fuel with
  | 0 => s
  | fuel + 1 =>
    let s1 : PState := { s with depth := s.depth + 1 }
    let r :=
      if !v.isValid then printString "nil" s1
      else match lookupPrinter p v.typeOf with
      | some cp =>
        match cp v with
        | (_, some e) => { s1 with err := some e }
        | (out, none) => printString out s1
      | none =>
        match v with
        | .invalid => s1
        | .vbool _ _ | .vstr _ _ | .vint _ _ | .vuint _ _ =>
            printPrimitiveLiteral p v imputedType s1
        | .vfloat _ _ => printFloat p v imputedType s1
        | .vcomplex _ _ _ => printComplex p v imputedType s1
        | .vptr _ _ => printPtr p heap fuel v imputedType elide s1
        | .viface _ inner => print p heap fuel (inner.getD .invalid) imputedType elide s1
        | .vslice _ _ | .varray _ _ => printSliceOrArray p heap fuel v imputedType elide s1
        | .vmap _ _ => printMap p heap fuel v imputedType elide s1
        | .vstruct _ _ => printStruct p heap fuel v imputedType elide s1
        | .vchan t _ | .vfunc t _ | .vuptr t _ => { s1 with err := some (cannotPrintErr t) }
    { r with depth := s.depth }

/-- Model of state.sprint: run a print into a fresh buffer on a copy of the
state and return only the text; errors and other changes in the copied
state are discarded. -/
def sprint (p : Printer) (heap : Heap) (fuel : Nat) (v : RValue)
    (imputedType : Option RType) (elide : Bool) (s : PState) : String :=
  match fuel with
  | 0 => ""
  | fuel + 1 => (print p heap fuel v imputedType elide { s with out := "" }).out

/-- Model of state.printPtr: nil handling, the address-of-fresh-variable
idiom for primitive referents, elision through an imputed pointer type, and
otherwise an address-of marker followed by the referent with no imputed
type. -/
def printPtr (p : Printer) (heap : Heap) (fuel : Nat) (v : RValue)
    (imputedType : Option RType) (elide : Bool) (s : PState) : PState :=
  match fuel with
  | 0 => s
  | fuel + 1 =>
    let elem := match v with
      | .vptr _ (some a) => heap.getD a .invalid
      | _ => .invalid
    match printIfNil p v imputedType s with
    | (true, s0) => s0
    | (false, s0) =>
      if elem.isPrimitiveKind then
        let (ts, s1) := sprintType p elem.typeOf s0
        let inner := sprint p heap fuel elem (some elem.typeOf) false s1
        printString ("func() *" ++ ts ++ " \x7b var x " ++ ts ++ " = " ++ inner ++
          "; return &x \x7d()") s1
      else if typesEqOpt v.typeOf imputedType && elide then
        print p heap fuel elem (some ((imputedType.getD tInt).elemType)) elide s0
      else
        print p heap fuel elem none false (printString "&" s0)

/-- Model of state.printSliceOrArray: nil handling, the type name unless
elided, then the element sequence, each element recursing with the declared
element type imputed and elision permitted. -/
def printSliceOrArray (p : Printer) (heap : Heap) (fuel : Nat) (v : RValue)
    (imputedType : Option RType) (elide : Bool) (s : PState) : PState :=
  match fuel with
  | 0 => s
  | fuel + 1 =>
    match printIfNil p v imputedType s with
    | (true, s0) => s0
    | (false, s0) =>
      let t := v.typeOf
      let (ts, s1) := if elide && typesEqOpt t imputedType then ("", s0)
                      else sprintType p t s0
      let elems := v.elemsOf
      let s2 := printString ts s1
      printSeq (!(oneLineValue v)) elems.length
        (fun i st => print p heap fuel (elems.getD i .invalid) (some t.elemType) true st)
        s2

/-- Model of state.printMap: nil handling, the type name unless elided, the
keys sorted when a less function is available, then the key-value sequence,
keys and values recursing with the declared key and value types imputed and
elision permitted. -/
def printMap (p : Printer) (heap : Heap) (fuel : Nat) (v : RValue)
    (imputedType : Option RType) (elide : Bool) (s : PState) : PState :=
  match fuel with
  | 0 => s
  | fuel + 1 =>
    match printIfNil p v imputedType s with
    | (true, s0) => s0
    | (false, s0) =>
      let t := v.typeOf
      let (ts, s1) := if elide && typesEqOpt t imputedType then ("", s0)
                      else sprintType p t s0
      let entries := v.entriesOf
      let keys0 := entries.map Prod.fst
      let keys := match p.getLessFunc t.keyType with
        | some less => sortSlice less keys0
        | none => keys0
      let s2 := printString ts s1
      printSeq (!(oneLineValue v)) keys.length
        (fun i st =>
          let st1 := print p heap fuel (keys.getD i .invalid) (some t.keyType) true st
          let st2 := printString ": " st1
          print p heap fuel (mapIndex entries (keys.getD i .invalid)) (some t.elemType)
            true st2)
        s2

/-- Model of state.printStruct: collect the selectable non-zero fields,
fail for a non-zero struct with none, then the type name unless elided and
the field sequence, each field recursing with its declared type imputed and
elision not permitted. -/
def printStruct (p : Printer) (heap : Heap) (fuel : Nat) (v : RValue)
    (imputedType : Option RType) (elide : Bool) (s : PState) : PState :=
  match fuel with
  | 0 => s
  | fuel + 1 =>
    let t := v.typeOf
    let fieldVals := v.fieldsOf
    let inds := emittableInds p t fieldVals
    let multiline0 := inds.any (fun i => !(oneLineType (fieldTypeAt t i)))
    if inds.length = 0 && !(isZero v) then
      { s with err := some (structNoFieldsErr t) }
    else
      let multiline := if inds.length < 2 then false else multiline0
      let s1 := if !(elide && typesEqOpt t imputedType) then
          let (ts, s2) := sprintType p t s
          printString ts s2
        else s
      printSeq multiline inds.length
        (fun i st =>
          let ind := inds.getD i 0
          let st1 := printString (fieldNameAt t ind ++ ": ") st
          print p heap fuel (fieldVals.getD ind .invalid) (some (fieldTypeAt t ind))
            false st1)
        s1

end

/-- Fuel given to a top-level emission: far more than the at most five
units consumed per depth level before the depth guard (at depth 101) stops
the recursion. -/
def printFuel : Nat := 1000

/-- The fresh state a top-level call starts from. -/
def initState : PState := { err := none, out := "", depth := 0, tabDepth := 0 }

/-- Model of Printer.Fprint: run the printer on a fresh state and return
the sink contents together with the sticky error. -/
def Printer.Fprint (p : Printer) (heap : Heap) (value : RValue) : String × Option String :=
  let s := print p heap printFuel value none false initState
  (s.out, s.err)

/-- Model of Printer.Sprint: like Fprint into a fresh buffer, but on error
the buffered text is discarded and the empty string returned. -/
def Printer.Sprint (p : Printer) (heap : Heap) (value : RValue) : String × Option String :=
  match p.Fprint heap value with
  | (out, none) => (out, none)
  | (_, some e) => ("", some e)

/-- Rendering of a named type by sprintType, as a pure function (sprintType
leaves the state unchanged on named types). -/
def namedTypeName (p : Printer) (t : RType) : String :=
  if t.pkgPathOf = "" then typeGoString t
  else if p.PackageIdentifier t.pkgPathOf = "" then t.tnameOf
  else p.PackageIdentifier t.pkgPathOf ++ "." ++ t.tnameOf

/-- Whether the value is of bool, string or integer (signed or unsigned)
kind: the kinds the primitive-literal dispatch arm of print covers. -/
def RValue.isBSIKind : RValue → Bool
  | .vbool _ _ => true
  | .vstr _ _ => true
  | .vint _ _ => true
  | .vuint _ _ => true
  | _ => false

/-- Output extension: the second state's sink holds the first state's sink
contents as a prefix (all printing operations only append to the sink). -/
def OutExt (s t : PState) : Prop := ∃ r, t.out = s.out ++ r

/- Concrete types and values used by the claim instances below.  The home
package of the example Printer is called "printing", as in the repository
test file. -/

/-- Example printer with home package "printing" and empty registries. -/
def pHome : Printer := { pkgPath := "printing", imports := [], printers := [], lessFuncs := [] }

/-- The predeclared int8 type. -/
def tInt8 : RType := .prim .kint8 "int8" ""

/-- The predeclared int32 type. -/
def tInt32 : RType := .prim .kint32 "int32" ""

/-- The predeclared float32 type. -/
def tFloat32 : RType := .prim .kfloat32 "float32" ""

/-- A named uint type from an unregistered foreign package (net.Flags). -/
def tNetFlags : RType := .prim .kuint "Flags" "net"

/-- A named pointer type that points to itself (`type P *P` in Go); the
element type stored in the descriptor is never consulted for a named
pointer type, so a placeholder suffices. -/
def tP : RType := .ptr tInt "P" "printing"

/-- The self-referential pointer value: heap cell 0 points to itself. -/
def selfPtr : RValue := .vptr tP (some 0)

/-- Unnamed channel type chan int. -/
def tChanInt : RType := .chanT tInt "" ""

/-- Unnamed channel type chan bool. -/
def tChanBool : RType := .chanT tBool "" ""

/-- Unnamed map type with channel key and element types, neither of which
sprintType can render. -/
def tMapCC : RType := .mapT tChanInt tChanBool "" ""

/-- Unnamed map type map[float64]int. -/
def tMapFI : RType := .mapT tFloat64 tInt "" ""

/-- A NaN key of type float64. -/
def nanKey : RValue := .vfloat tFloat64 .nan

/-- The float64 key 1. -/
def oneKey : RValue := .vfloat tFloat64 (.finite 1)

/-- The int value 1. -/
def intOne : RValue := .vint tInt 1

/-- Map type map[int]int. -/
def tMapII : RType := .mapT tInt tInt "" ""

/-- Struct type printing.A with a single exported pointer field P; the
pointee type in the descriptor is a placeholder, never consulted because
the field renders through the address-of branch. -/
def tA : RType := .structT "A" "printing" [("P", true, .ptr (.iface "" "" 0) "" "")]

/-- The zero value of A (nil P field), placed on the heap. -/
def zeroA : RValue := .vstruct tA [.vptr (.ptr (.iface "" "" 0) "" "") none]

/-- An A value whose P field points at the heap cell holding zeroA. -/
def someA : RValue := .vstruct tA [.vptr (.ptr (.iface "" "" 0) "" "") (some 0)]

/-- Unnamed slice type []A. -/
def tSliceA : RType := .slice tA "" ""

/-- A model of math/big.Int as seen from outside its package: one non-zero
unexported field. -/
def tBigInt : RType := .structT "Int" "math/big" [("neg", false, tBool)]

/-- A non-zero big.Int-like value: the unexported field is true. -/
def bigIntVal : RValue := .vstruct tBigInt [.vbool tBool true]

/-- Struct type printing.S2 with an int field and a chan field. -/
def tS2 : RType := .structT "S2" "printing" [("A", true, tInt), ("C", true, tChanInt)]

/-- An S2 value with a non-nil channel, which print cannot render. -/
def vS2 : RValue := .vstruct tS2 [.vint tInt 1, .vchan tChanInt true]

/-- Heap for the pointer-to-pointer example: cell 0 holds int8 7, cell 1
holds a *int8 pointing at cell 0. -/
def heapPP : Heap := [.vint tInt8 7, .vptr (.ptr tInt8 "" "") (some 0)]

/-- A **int8 value pointing at heap cell 1. -/
def vPP : RValue := .vptr (.ptr (.ptr tInt8 "" "") "" "") (some 1)

/-- Number of positions at which the pattern occurs in the character
list. -/
def countOccs (pat : List Char) : List Char → Nat
  | [] => 0
  | c :: rest => (if pat.isPrefixOf (c :: rest) then 1 else 0) + countOccs pat rest

/-- Number of occurrences of a pattern string inside a string. -/
def occurrences (pat s : String) : Nat := countOccs pat.toList s.toList

/-! ## General lemmas about the emission machinery -/

/-- A write is a no-op once the error slot is set. -/
theorem printString_of_err {s : PState} {e : String} (h : s.err = some e) (str : String) :
    printString str s = s := by
  simp [printString, h]

/-- The sink only grows under printString. -/
theorem printString_outExt (str : String) (s : PState) : OutExt s (printString str s) := by
  unfold printString OutExt
  by_cases h : s.err = none
  · simp [h]
  · exact ⟨"", by simp [h]⟩

/-- A recursive print call returns immediately, leaving the state
unchanged, once the error slot is set. -/
theorem print_of_err {s : PState} {e : String} (h : s.err = some e)
    (p : Printer) (heap : Heap) (fuel : Nat) (v : RValue) (imputedType : Option RType)
    (elide : Bool) : print p heap fuel v imputedType elide s = s := by
  unfold print
  simp [h]

/-- sprintType leaves the state unchanged on a named type and returns its
rendered name. -/
theorem sprintType_named {t : RType} (h : t.tnameOf ≠ "") (p : Printer) (s : PState) :
    sprintType p t s = (namedTypeName p t, s) := by
  unfold sprintType namedTypeName
  rw [if_pos h]
  by_cases h1 : t.pkgPathOf = "" <;> by_cases h2 : p.PackageIdentifier t.pkgPathOf = "" <;>
    simp [h1, h2]

/-- The type namer never clears the error slot: whatever it does to the
state, a non-empty slot stays non-empty (it may however be overwritten, see
the claim C2 counterexample). -/
theorem sprintType_err_stays : ∀ (t : RType) (s : PState), s.err ≠ none →
    ∀ (p : Printer), (sprintType p t s).2.err ≠ none
  | .prim _ n _, s, hs, p => by
      by_cases h : n ≠ ""
      · rw [sprintType_named (by simpa [RType.tnameOf] using h)]; exact hs
      · unfold sprintType; simp_all [RType.tnameOf]
  | .ptr e n pk, s, hs, p => by
      by_cases h : n ≠ ""
      · rw [sprintType_named (by simpa [RType.tnameOf] using h)]; exact hs
      · unfold sprintType
        simp only [ne_eq, not_not] at h
        subst h
        have h1 := sprintType_err_stays e s hs p
        rcases hsp : sprintType p e s with ⟨ts, s1⟩
        rw [hsp] at h1
        simpa [RType.tnameOf, hsp] using h1
  | .slice e n pk, s, hs, p => by
      by_cases h : n ≠ ""
      · rw [sprintType_named (by simpa [RType.tnameOf] using h)]; exact hs
      · unfold sprintType
        simp only [ne_eq, not_not] at h
        subst h
        have h1 := sprintType_err_stays e s hs p
        rcases hsp : sprintType p e s with ⟨ts, s1⟩
        rw [hsp] at h1
        simpa [RType.tnameOf, hsp] using h1
  | .arr _ e n pk, s, hs, p => by
      by_cases h : n ≠ ""
      · rw [sprintType_named (by simpa [RType.tnameOf] using h)]; exact hs
      · unfold sprintType
        simp only [ne_eq, not_not] at h
        subst h
        have h1 := sprintType_err_stays e s hs p
        rcases hsp : sprintType p e s with ⟨ts, s1⟩
        rw [hsp] at h1
        simpa [RType.tnameOf, hsp] using h1
  | .mapT k e n pk, s, hs, p => by
      by_cases h : n ≠ ""
      · rw [sprintType_named (by simpa [RType.tnameOf] using h)]; exact hs
      · unfold sprintType
        simp only [ne_eq, not_not] at h
        subst h
        have h1 := sprintType_err_stays k s hs p
        rcases hk : sprintType p k s with ⟨ks, s1⟩
        rw [hk] at h1
        have h2 := sprintType_err_stays e s1 h1 p
        rcases he : sprintType p e s1 with ⟨es, s2⟩
        rw [he] at h2
        simpa [RType.tnameOf, hk, he] using h2
  | .structT n pk fs, s, hs, p => by
      by_cases h : n ≠ ""
      · rw [sprintType_named (by simpa [RType.tnameOf] using h)]; exact hs
      · unfold sprintType; simp_all [RType.tnameOf]
  | .iface n pk m, s, hs, p => by
      by_cases h : n ≠ ""
      · rw [sprintType_named (by simpa [RType.tnameOf] using h)]; exact hs
      · unfold sprintType
        simp only [ne_eq, not_not] at h
        subst h
        match m with
        | 0 => simpa [RType.tnameOf] using hs
        | _ + 1 => simp [RType.tnameOf]
  | .chanT e n pk, s, hs, p => by
      by_cases h : n ≠ ""
      · rw [sprintType_named (by simpa [RType.tnameOf] using h)]; exact hs
      · unfold sprintType; simp_all [RType.tnameOf]
  | .funcT n pk, s, hs, p => by
      by_cases h : n ≠ ""
      · rw [sprintType_named (by simpa [RType.tnameOf] using h)]; exact hs
      · unfold sprintType; simp_all [RType.tnameOf]
  | .uptrT n pk, s, hs, p => by
      by_cases h : n ≠ ""
      · rw [sprintType_named (by simpa [RType.tnameOf] using h)]; exact hs
      · unfold sprintType; simp_all [RType.tnameOf]

/-! ## Claim C2: the sticky error slot -/

/-- Claim C2, counterexample: the error slot is not "never overwritten", and
the caller does not observe the first error of the recursive tree.  Starting
from a state whose slot already holds the unnamed-type error for chan int,
naming chan bool replaces it.  End to end, printing a nil map[chan int]chan
bool value makes sprintType fail first on the key type chan int, yet the
caller observes the later chan bool error, because the elem-type failure
assignment in sprintType overwrites the slot unconditionally. -/
theorem claim_C2_counterexample :
    (sprintType pHome tChanBool
        { err := some (unnamedTypeErr tChanInt), out := "", depth := 0, tabDepth := 0 }).2.err
      = some (unnamedTypeErr tChanBool)
    ∧ unnamedTypeErr tChanInt ≠ unnamedTypeErr tChanBool
    ∧ (sprintType pHome tChanInt initState).2.err = some (unnamedTypeErr tChanInt)
    ∧ Printer.Sprint pHome [] (.vmap tMapCC none) = ("", some (unnamedTypeErr tChanBool)) := by
  refine ⟨by decide, by decide, by decide, by decide⟩

/-- Claim C2, amended: within one emission call, once the error slot is
non-empty every write is a no-op and every recursive print call returns
immediately with the state unchanged, and the type namer never clears the
slot (though it may overwrite it, and errors inside buffered sub-prints are
confined to the discarded copied state). -/
theorem claim_C2_amended :
    (∀ (p : Printer) (heap : Heap) (fuel : Nat) (v : RValue) (imputedType : Option RType)
        (elide : Bool) (s : PState) (e : String), s.err = some e →
        print p heap fuel v imputedType elide s = s)
    ∧ (∀ (str : String) (s : PState) (e : String), s.err = some e → printString str s = s)
    ∧ (∀ (p : Printer) (t : RType) (s : PState) (e : String), s.err = some e →
        (sprintType p t s).2.err ≠ none) := by
  refine ⟨?_, ?_, ?_⟩
  · intro p heap fuel v imp el s e h
    exact print_of_err h p heap fuel v imp el
  · intro str s e h
    exact printString_of_err h str
  · intro p t s e h
    exact sprintType_err_stays t s (by simp [h]) p

/-- Witness for the amended claim C2 at a concrete errored state. -/
theorem claim_C2_amended_witness :
    print pHome [] 5 intOne none false ⟨some "boom", "x", 0, 0⟩ = ⟨some "boom", "x", 0, 0⟩
    ∧ printString "y" ⟨some "boom", "x", 0, 0⟩ = ⟨some "boom", "x", 0, 0⟩
    ∧ (sprintType pHome tChanInt ⟨some "boom", "x", 0, 0⟩).2.err ≠ none :=
  ⟨claim_C2_amended.1 pHome [] 5 intOne none false _ "boom" rfl,
   claim_C2_amended.2.1 "y" _ "boom" rfl,
   claim_C2_amended.2.2 pHome tChanInt _ "boom" rfl⟩

/-! ## Claim C8: the type namer and the import table -/

/-- Claim C8, counterexample: naming a foreign named type with no
registered import does not fail; it falls back to the last component of the package
path as qualifier and leaves the state (and its error slot) unchanged. -/
theorem claim_C8_counterexample :
    pHome.imports = []
    ∧ sprintType pHome tNetFlags initState = ("net.Flags", initState)
    ∧ (sprintType pHome tNetFlags initState).2.err = none := by
  refine ⟨rfl, by decide, by decide⟩

/-- Claim C8, amended: a named type never makes the type namer fail; the
rendered name is unqualified when the package path is empty (predeclared) or
the identifier resolves to empty (the home package), and otherwise qualified
with the registered identifier, falling back to the last component of the
package path when no import is registered. -/
theorem claim_C8_amended :
    (∀ (p : Printer) (t : RType) (s : PState), t.tnameOf ≠ "" →
        sprintType p t s = (namedTypeName p t, s))
    ∧ (∀ (p : Printer) (pk : String), pk = p.pkgPath → p.PackageIdentifier pk = "")
    ∧ (∀ (p : Printer) (pk : String) (q : String × String), pk ≠ p.pkgPath →
        p.imports.find? (fun q2 => q2.1 == pk) = some q → p.PackageIdentifier pk = q.2)
    ∧ (∀ (p : Printer) (pk : String), pk ≠ p.pkgPath →
        p.imports.find? (fun q2 => q2.1 == pk) = none →
        p.PackageIdentifier pk = pathBase pk) := by
  refine ⟨?_, ?_, ?_, ?_⟩
  · intro p t s h
    exact sprintType_named h p s
  · intro p pk h
    simp [Printer.PackageIdentifier, h]
  · intro p pk q h hf
    simp [Printer.PackageIdentifier, h, hf]
  · intro p pk h hf
    simp [Printer.PackageIdentifier, h, hf]

/-- Witness for the amended claim C8: a local named type renders
unqualified and a foreign unregistered one qualified by the path base. -/
theorem claim_C8_amended_witness :
    sprintType pHome tA initState = (namedTypeName pHome tA, initState)
    ∧ pHome.PackageIdentifier "printing" = ""
    ∧ pHome.PackageIdentifier "net" = pathBase "net" :=
  ⟨claim_C8_amended.1 pHome tA initState (by decide),
   claim_C8_amended.2.1 pHome "printing" rfl,
   claim_C8_amended.2.2.2 pHome "net" (by decide) rfl⟩

/-! ## Claim C7: NaN and infinities -/

/-- Claim C7: NaN and the infinities render as math-vocabulary calls,
conversion-wrapped exactly when the value's type is not float64.  In
particular a float64 positive infinity emits the bare positive-infinity
call, and a float32 NaN emits the NaN call wrapped in a float32
conversion. -/
theorem claim_C7 :
    (∀ (p : Printer) (heap : Heap) (fuel : Nat) (t : RType) (f : GoFloat)
        (imputedType : Option RType) (elide : Bool) (s : PState),
        lookupPrinter p t = none → t.tnameOf ≠ "" → specialFloatString f ≠ "" →
        s.err = none → s.depth ≤ maxDepth →
        print p heap (fuel + 1) (.vfloat t f) imputedType elide s =
          { s with out := s.out ++
              (if RType.beq t tFloat64 then specialFloatString f
               else namedTypeName p t ++ "(" ++ specialFloatString f ++ ")") })
    ∧ (∀ (p : Printer) (heap : Heap) (fuel : Nat) (imputedType : Option RType)
        (elide : Bool) (s : PState),
        lookupPrinter p tFloat64 = none → s.err = none → s.depth ≤ maxDepth →
        print p heap (fuel + 1) (.vfloat tFloat64 (.inf false)) imputedType elide s =
          { s with out := s.out ++ "math.Inf(1)" })
    ∧ (∀ (p : Printer) (heap : Heap) (fuel : Nat) (imputedType : Option RType)
        (elide : Bool) (s : PState),
        lookupPrinter p tFloat32 = none → s.err = none → s.depth ≤ maxDepth →
        print p heap (fuel + 1) (.vfloat tFloat32 .nan) imputedType elide s =
          { s with out := s.out ++ "float32(math.NaN())" }) := by
  have gen : ∀ (p : Printer) (heap : Heap) (fuel : Nat) (t : RType) (f : GoFloat)
      (imputedType : Option RType) (elide : Bool) (s : PState),
      lookupPrinter p t = none → t.tnameOf ≠ "" → specialFloatString f ≠ "" →
      s.err = none → s.depth ≤ maxDepth →
      print p heap (fuel + 1) (.vfloat t f) imputedType elide s =
        { s with out := s.out ++
            (if RType.beq t tFloat64 then specialFloatString f
             else namedTypeName p t ++ "(" ++ specialFloatString f ++ ")") } := by
    intro p heap fuel t f imputedType elide s hcp hname hsp herr hdepth
    have hnd : ¬ s.depth > maxDepth := by omega
    unfold print
    simp only [herr, hnd, RValue.isValid, RValue.typeOf, hcp, ne_eq, not_false_eq_true,
      reduceCtorEq, not_true_eq_false, Bool.not_true, if_false, ite_false,
      Bool.false_eq_true, if_neg, not_false_iff]
    unfold printFloat
    simp only [RValue.floatVal, RValue.typeOf, hsp, if_neg, ite_false]
    by_cases hb : RType.beq t tFloat64 = true
    · rw [if_pos hb, if_pos hb]
      simp [printString, herr]
    · rw [if_neg hb, if_neg hb, sprintType_named hname]
      simp [printString, herr]
  refine ⟨gen, ?_, ?_⟩
  · intro p heap fuel imputedType elide s hcp herr hdepth
    have h := gen p heap fuel tFloat64 (.inf false) imputedType elide s hcp (by decide)
      (by decide) herr hdepth
    simpa using h
  · intro p heap fuel imputedType elide s hcp herr hdepth
    have h := gen p heap fuel tFloat32 .nan imputedType elide s hcp (by decide)
      (by decide) herr hdepth
    rw [h]
    have : (if RType.beq tFloat32 tFloat64 then specialFloatString GoFloat.nan
        else namedTypeName p tFloat32 ++ "(" ++ specialFloatString GoFloat.nan ++ ")")
        = "float32(math.NaN())" := by
      simp [namedTypeName, typeGoString, tFloat32, RType.pkgPathOf, RType.beq, tFloat64,
        specialFloatString]
    rw [this]

/-- Witness for claim C7 at the two concrete scenarios of the spec. -/
theorem claim_C7_witness :
    print pHome [] 1 (.vfloat tFloat64 (.inf false)) none false initState =
      { initState with out := "math.Inf(1)" }
    ∧ print pHome [] 1 (.vfloat tFloat32 .nan) none false initState =
      { initState with out := "float32(math.NaN())" } := by
  constructor
  · have h := claim_C7.2.1 pHome [] 0 none false initState rfl rfl (by decide)
    simpa using h
  · have h := claim_C7.2.2 pHome [] 0 none false initState rfl rfl (by decide)
    simpa using h

/-! ## Claim C9: non-zero structs without printable fields -/

/-- Claim C9: printing a struct value that is not the zero value of its type
but has no emittable field (none that is selectable and non-zero) fails with
the error naming the struct type, leaving the sink untouched. -/
theorem claim_C9 (p : Printer) (heap : Heap) (fuel : Nat) (v : RValue) (t : RType)
    (fields : List RValue) (imputedType : Option RType) (elide : Bool) (s : PState)
    (hv : v = .vstruct t fields)
    (hcp : lookupPrinter p t = none)
    (hnz : isZero v = false)
    (hempty : emittableInds p t fields = [])
    (herr : s.err = none)
    (hdepth : s.depth ≤ maxDepth) :
    print p heap (fuel + 2) v imputedType elide s =
      { s with err := some (structNoFieldsErr t) } := by
  subst hv
  have hnd : ¬ s.depth > maxDepth := by omega
  unfold print
  simp only [herr, hnd, if_false, ite_false, ne_eq, not_false_eq_true, reduceCtorEq,
    not_true_eq_false, if_neg, RValue.isValid, RValue.typeOf, Bool.not_true, Bool.false_eq_true]
  simp only [hcp]
  unfold printStruct
  simp [hempty, hnz, RValue.typeOf, RValue.fieldsOf]

/-- Witness for claim C9: a big.Int-like foreign struct with one non-zero
unexported field fails with the actionable error. -/
theorem claim_C9_witness :
    print pHome [] 2 bigIntVal none false initState =
      { initState with err := some (structNoFieldsErr tBigInt) } :=
  claim_C9 pHome [] 0 bigIntVal tBigInt [.vbool tBool true] none false initState rfl
    rfl (by decide) (by decide) rfl (by decide)

/-! ## Claim C4: primitive literals and conversion wrapping -/

/-- Claim C4: a bool, string or integer value emits its literal form,
wrapped in a conversion to its concrete type exactly when that type differs
from the default type of the literal and the imputed type is absent or of
interface kind; otherwise the bare literal is emitted. -/
theorem claim_C4 (p : Printer) (heap : Heap) (fuel : Nat) (v : RValue)
    (imputedType : Option RType) (elide : Bool) (s : PState)
    (hkind : v.isBSIKind = true)
    (hcp : lookupPrinter p v.typeOf = none)
    (hname : v.typeOf.tnameOf ≠ "")
    (hf64 : v.typeOf.isFloat64Kind = false)
    (herr : s.err = none)
    (hdepth : s.depth ≤ maxDepth) :
    print p heap (fuel + 1) v imputedType elide s =
      { s with out := s.out ++
          (if !(RType.beq v.typeOf (defaultType v)) && impNilOrIface imputedType then
             namedTypeName p v.typeOf ++ "(" ++ goLiteral v ++ ")"
           else goLiteral v) } := by
  have hnd : ¬ s.depth > maxDepth := by omega
  have main : printPrimitiveLiteral p v imputedType { s with depth := s.depth + 1 } =
      { s with depth := s.depth + 1, out := s.out ++
        (if !(RType.beq v.typeOf (defaultType v)) && impNilOrIface imputedType then
           namedTypeName p v.typeOf ++ "(" ++ goLiteral v ++ ")"
         else goLiteral v) } := by
    unfold printPrimitiveLiteral
    simp only [hf64, Bool.false_and, Bool.false_eq_true, if_false, ite_false]
    by_cases hc : (!(RType.beq v.typeOf (defaultType v)) && impNilOrIface imputedType) = true
    · rw [if_pos hc, if_pos hc, sprintType_named hname]
      simp [printString, herr]
    · rw [if_neg hc, if_neg hc]
      simp [printString, herr]
  cases v with
  | vbool t b =>
      unfold print
      simp only [herr, hnd, RValue.isValid, hcp] at *
      simp_all [main]
  | vstr t str =>
      unfold print
      simp only [herr, hnd, RValue.isValid, hcp] at *
      simp_all [main]
  | vint t n =>
      unfold print
      simp only [herr, hnd, RValue.isValid, hcp] at *
      simp_all [main]
  | vuint t n =>
      unfold print
      simp only [herr, hnd, RValue.isValid, hcp] at *
      simp_all [main]
  | invalid => simp [RValue.isBSIKind] at hkind
  | vfloat t f => simp [RValue.isBSIKind] at hkind
  | vcomplex t re im => simp [RValue.isBSIKind] at hkind
  | vptr t a => simp [RValue.isBSIKind] at hkind
  | vslice t e => simp [RValue.isBSIKind] at hkind
  | varray t e => simp [RValue.isBSIKind] at hkind
  | vmap t e => simp [RValue.isBSIKind] at hkind
  | vstruct t f => simp [RValue.isBSIKind] at hkind
  | viface t i => simp [RValue.isBSIKind] at hkind
  | vchan t nn => simp [RValue.isBSIKind] at hkind
  | vfunc t nn => simp [RValue.isBSIKind] at hkind
  | vuptr t nn => simp [RValue.isBSIKind] at hkind

/-! ## Claim C1: the round-trip property at the pointer-to-pointer input -/

/-- Claim C1, evaluation at the failing input: for the **int8 value
(p := new(int8); *p = 7; the value &p), Sprint reports no error yet emits
`&` applied to a function call, which is not a compilable Go expression (a
call result is not addressable), so evaluating the emitted text cannot
reproduce the value. -/
theorem claim_C1_code_evaluation :
    Printer.Sprint pHome heapPP vPP =
      ("&func() *int8 \x7b var x int8 = 7; return &x \x7d()", none) := by decide

/-! ## Claim C10: Sprint discards partial text on error -/

/-- Claim C10: whenever Sprint reports an error the returned string is
empty, while Fprint can leave partial text in the sink, as the concrete
struct-with-channel run shows. -/
theorem claim_C10 :
    (∀ (p : Printer) (heap : Heap) (v : RValue) (e : String),
        (Printer.Sprint p heap v).2 = some e → (Printer.Sprint p heap v).1 = "")
    ∧ Printer.Fprint pHome [] vS2 =
        ("S2\x7b\n\tA: 1,\n\tC: ", some (cannotPrintErr tChanInt))
    ∧ Printer.Sprint pHome [] vS2 = ("", some (cannotPrintErr tChanInt)) := by
  refine ⟨?_, by decide, by decide⟩
  intro p heap v e h
  unfold Printer.Sprint at h ⊢
  rcases hf : Printer.Fprint p heap v with ⟨out, err⟩
  cases err <;> simp_all

/-- Witness for claim C10 applied at the struct-with-channel input. -/
theorem claim_C10_witness :
    (Printer.Sprint pHome [] vS2).2 = some (cannotPrintErr tChanInt)
    ∧ (Printer.Sprint pHome [] vS2).1 = "" :=
  ⟨by decide, claim_C10.1 pHome [] vS2 (cannotPrintErr tChanInt) (by decide)⟩

/-! ## Claim C3: the depth guard terminates every emission -/

/-- One self-pointer cycle consumes two fuel units and one depth level;
iterating from any depth below the ceiling, the run ends in the
depth-exceeded error. -/
theorem selfPtr_err : ∀ (k fuel d : Nat) (o : String) (tb : Nat),
    d + k = maxDepth + 1 → 2 * k + 1 ≤ fuel →
    (print pHome [selfPtr] fuel selfPtr none false ⟨none, o, d, tb⟩).err = some depthErr := by
  intro k
  induction k with
  | zero =>
      intro fuel d o tb hd hf
      have hgt : (⟨none, o, d, tb⟩ : PState).depth > maxDepth := by simp; omega
      unfold print
      simp [hgt]
  | succ n ih =>
      intro fuel d o tb hd hf
      have hdle : ¬ (⟨none, o, d, tb⟩ : PState).depth > maxDepth := by simp; omega
      obtain ⟨f1, rfl⟩ : ∃ f1, fuel = f1 + 1 := ⟨fuel - 1, by omega⟩
      obtain ⟨f2, rfl⟩ : ∃ f2, f1 = f2 + 1 := ⟨f1 - 1, by omega⟩
      have step := ih f2 (d + 1) (o ++ "&") tb (by omega) (by omega)
      conv_lhs => unfold print printPtr
      rw [if_neg (by simp), if_neg hdle]
      simp only [selfPtr] at step ⊢
      simp only [List.getD, List.get?, Option.getD, printIfNil, RValue.isNilV,
        RValue.isPrimitiveKind, typesEqOpt, RValue.typeOf, Bool.and_false,
        Bool.false_eq_true, if_false, ite_false, printString, if_pos, if_true, ite_true]
      have hlp : lookupPrinter pHome tP = none := rfl
      simp [step, RValue.isValid, hlp]

/-- Claim C3: once the depth counter exceeds the ceiling, print records the
depth-exceeded error and stops, so even a deliberately self-referential
value terminates with that error instead of recursing forever. -/
theorem claim_C3 :
    (∀ (p : Printer) (heap : Heap) (fuel : Nat) (v : RValue)
        (imputedType : Option RType) (elide : Bool) (s : PState),
        s.err = none → s.depth > maxDepth →
        print p heap fuel v imputedType elide s = { s with err := some depthErr })
    ∧ Printer.Sprint pHome [selfPtr] selfPtr = ("", some depthErr) := by
  constructor
  · intro p heap fuel v imputedType elide s herr hdepth
    unfold print
    simp [herr, hdepth]
  · have h := selfPtr_err (maxDepth + 1) printFuel 0 "" 0 (by omega) (by decide)
    unfold Printer.Sprint Printer.Fprint
    have hinit : (initState : PState) = ⟨none, "", 0, 0⟩ := rfl
    rw [hinit]
    rcases hp : print pHome [selfPtr] printFuel selfPtr none false ⟨none, "", 0, 0⟩
      with ⟨e2, o2, d2, tb2⟩
    rw [hp] at h
    simp at h
    simp [h]

/-- Witness for claim C3: the depth guard fires at a concrete state just
past the ceiling. -/
theorem claim_C3_witness :
    print pHome [] 5 intOne none false ⟨none, "", 101, 0⟩ =
      { PState.mk none "" 101 0 with err := some depthErr } :=
  claim_C3.1 pHome [] 5 intOne none false ⟨none, "", 101, 0⟩ rfl (by decide)

/-- Witness for claim C4: int32(3) wraps (default type int, no imputed
type) while a plain int 5 does not. -/
theorem claim_C4_witness :
    print pHome [] 1 (.vint tInt32 3) none false initState = { initState with out := "int32(3)" }
    ∧ print pHome [] 1 (.vint tInt 5) none false initState = { initState with out := "5" } := by
  constructor
  · have h := claim_C4 pHome [] 0 (.vint tInt32 3) none false initState (by decide) rfl
      (by decide) (by decide) rfl (by decide)
    simpa using h
  · have h := claim_C4 pHome [] 0 (.vint tInt 5) none false initState (by decide) rfl
      (by decide) (by decide) rfl (by decide)
    simpa using h

/-! ## Output-extension lemmas: every operation only appends to the sink -/

/-- OutExt is reflexive. -/
theorem outExt_refl (s : PState) : OutExt s s := ⟨"", by simp⟩

/-- OutExt is transitive. -/
theorem outExt_trans {s t u : PState} (h1 : OutExt s t) (h2 : OutExt t u) : OutExt s u := by
  obtain ⟨r1, hr1⟩ := h1
  obtain ⟨r2, hr2⟩ := h2
  exact ⟨r1 ++ r2, by rw [hr2, hr1, String.append_assoc]⟩

/-- A state differing only outside the sink extends the original sink. -/
theorem outExt_of_out_eq {s t : PState} (h : t.out = s.out) : OutExt s t := ⟨"", by simp [h]⟩

/-- The type namer never writes to the sink. -/
theorem sprintType_out : ∀ (t : RType) (p : Printer) (s : PState),
    (sprintType p t s).2.out = s.out
  | .prim _ n _, p, s => by
      by_cases h : n ≠ ""
      · rw [sprintType_named (by simpa [RType.tnameOf] using h)]
      · unfold sprintType; simp_all [RType.tnameOf]
  | .ptr e n pk, p, s => by
      by_cases h : n ≠ ""
      · rw [sprintType_named (by simpa [RType.tnameOf] using h)]
      · unfold sprintType
        simp only [ne_eq, not_not] at h
        subst h
        have h1 := sprintType_out e p s
        rcases hsp : sprintType p e s with ⟨ts, s1⟩
        rw [hsp] at h1
        simpa [RType.tnameOf, hsp] using h1
  | .slice e n pk, p, s => by
      by_cases h : n ≠ ""
      · rw [sprintType_named (by simpa [RType.tnameOf] using h)]
      · unfold sprintType
        simp only [ne_eq, not_not] at h
        subst h
        have h1 := sprintType_out e p s
        rcases hsp : sprintType p e s with ⟨ts, s1⟩
        rw [hsp] at h1
        simpa [RType.tnameOf, hsp] using h1
  | .arr _ e n pk, p, s => by
      by_cases h : n ≠ ""
      · rw [sprintType_named (by simpa [RType.tnameOf] using h)]
      · unfold sprintType
        simp only [ne_eq, not_not] at h
        subst h
        have h1 := sprintType_out e p s
        rcases hsp : sprintType p e s with ⟨ts, s1⟩
        rw [hsp] at h1
        simpa [RType.tnameOf, hsp] using h1
  | .mapT k e n pk, p, s => by
      by_cases h : n ≠ ""
      · rw [sprintType_named (by simpa [RType.tnameOf] using h)]
      · unfold sprintType
        simp only [ne_eq, not_not] at h
        subst h
        have h1 := sprintType_out k p s
        rcases hk : sprintType p k s with ⟨ks, s1⟩
        rw [hk] at h1
        have h2 := sprintType_out e p s1
        rcases he : sprintType p e s1 with ⟨es, s2⟩
        rw [he] at h2
        simp only [RType.tnameOf, hk, he]
        simp only at h1 h2
        simp [h2, h1]
  | .structT n pk fs, p, s => by
      by_cases h : n ≠ ""
      · rw [sprintType_named (by simpa [RType.tnameOf] using h)]
      · unfold sprintType; simp_all [RType.tnameOf]
  | .iface n pk m, p, s => by
      by_cases h : n ≠ ""
      · rw [sprintType_named (by simpa [RType.tnameOf] using h)]
      · unfold sprintType
        simp only [ne_eq, not_not] at h
        subst h
        match m with
        | 0 => simp [RType.tnameOf]
        | _ + 1 => simp [RType.tnameOf]
  | .chanT e n pk, p, s => by
      by_cases h : n ≠ ""
      · rw [sprintType_named (by simpa [RType.tnameOf] using h)]
      · unfold sprintType; simp_all [RType.tnameOf]
  | .funcT n pk, p, s => by
      by_cases h : n ≠ ""
      · rw [sprintType_named (by simpa [RType.tnameOf] using h)]
      · unfold sprintType; simp_all [RType.tnameOf]
  | .uptrT n pk, p, s => by
      by_cases h : n ≠ ""
      · rw [sprintType_named (by simpa [RType.tnameOf] using h)]
      · unfold sprintType; simp_all [RType.tnameOf]

/-- printIfNil only appends to the sink. -/
theorem printIfNil_outExt (p : Printer) (v : RValue) (imputedType : Option RType)
    (s : PState) : OutExt s (printIfNil p v imputedType s).2 := by
  unfold printIfNil
  cases v with
  | invalid => dsimp only; exact outExt_refl s
  | vbool t a => dsimp only; exact outExt_refl s
  | vstr t a => dsimp only; exact outExt_refl s
  | vint t a => dsimp only; exact outExt_refl s
  | vuint t a => dsimp only; exact outExt_refl s
  | vfloat t a => dsimp only; exact outExt_refl s
  | vcomplex t a a2 => dsimp only; exact outExt_refl s
  | vptr t a =>
      dsimp only
      split
      · split
        · exact printString_outExt _ _
        · have ho := sprintType_out (RValue.vptr t a).typeOf p s
          rcases hsp : sprintType p (RValue.vptr t a).typeOf s with ⟨ts, s1⟩
          rw [hsp] at ho
          simp only at ho
          dsimp only
          split <;> exact outExt_trans (outExt_of_out_eq ho) (printString_outExt _ _)
      · exact outExt_refl s
  | vslice t a =>
      dsimp only
      split
      · split
        · exact printString_outExt _ _
        · have ho := sprintType_out (RValue.vslice t a).typeOf p s
          rcases hsp : sprintType p (RValue.vslice t a).typeOf s with ⟨ts, s1⟩
          rw [hsp] at ho
          simp only at ho
          dsimp only
          split <;> exact outExt_trans (outExt_of_out_eq ho) (printString_outExt _ _)
      · exact outExt_refl s
  | varray t a => dsimp only; exact outExt_refl s
  | vmap t a =>
      dsimp only
      split
      · split
        · exact printString_outExt _ _
        · have ho := sprintType_out (RValue.vmap t a).typeOf p s
          rcases hsp : sprintType p (RValue.vmap t a).typeOf s with ⟨ts, s1⟩
          rw [hsp] at ho
          simp only at ho
          dsimp only
          split <;> exact outExt_trans (outExt_of_out_eq ho) (printString_outExt _ _)
      · exact outExt_refl s
  | vstruct t a => dsimp only; exact outExt_refl s
  | viface t a =>
      dsimp only
      split
      · split
        · exact printString_outExt _ _
        · have ho := sprintType_out (RValue.viface t a).typeOf p s
          rcases hsp : sprintType p (RValue.viface t a).typeOf s with ⟨ts, s1⟩
          rw [hsp] at ho
          simp only at ho
          dsimp only
          split <;> exact outExt_trans (outExt_of_out_eq ho) (printString_outExt _ _)
      · exact outExt_refl s
  | vchan t a => dsimp only; exact outExt_refl s
  | vfunc t a => dsimp only; exact outExt_refl s
  | vuptr t a => dsimp only; exact outExt_refl s

/-- printPrimitiveLiteral only appends to the sink. -/
theorem printPrimitiveLiteral_outExt (p : Printer) (v : RValue)
    (imputedType : Option RType) (s : PState) :
    OutExt s (printPrimitiveLiteral p v imputedType s) := by
  unfold printPrimitiveLiteral
  dsimp only
  split
  · have ho := sprintType_out v.typeOf p s
    rcases hsp : sprintType p v.typeOf s with ⟨ts, s1⟩
    rw [hsp] at ho
    exact outExt_trans (outExt_of_out_eq ho) (printString_outExt _ _)
  · exact printString_outExt _ _

/-- printFloat only appends to the sink. -/
theorem printFloat_outExt (p : Printer) (v : RValue) (imputedType : Option RType)
    (s : PState) : OutExt s (printFloat p v imputedType s) := by
  unfold printFloat
  dsimp only
  split
  · exact printPrimitiveLiteral_outExt p v imputedType s
  · split
    · exact printString_outExt _ _
    · have ho := sprintType_out v.typeOf p s
      rcases hsp : sprintType p v.typeOf s with ⟨ts, s1⟩
      rw [hsp] at ho
      exact outExt_trans (outExt_of_out_eq ho) (printString_outExt _ _)

/-- printComplex only appends to the sink. -/
theorem printComplex_outExt (p : Printer) (v : RValue) (imputedType : Option RType)
    (s : PState) : OutExt s (printComplex p v imputedType s) := by
  unfold printComplex
  cases v with
  | vcomplex t re im =>
      dsimp only
      split
      · exact printPrimitiveLiteral_outExt _ _ _ _
      · split
        · have ho := sprintType_out t p s
          rcases hsp : sprintType p t s with ⟨ts, s1⟩
          rw [hsp] at ho
          simp only at ho
          exact outExt_trans (outExt_of_out_eq ho) (printString_outExt _ _)
        · exact printString_outExt _ _
  | invalid => exact outExt_refl s
  | vbool t a => exact outExt_refl s
  | vstr t a => exact outExt_refl s
  | vint t a => exact outExt_refl s
  | vuint t a => exact outExt_refl s
  | vfloat t a => exact outExt_refl s
  | vptr t a => exact outExt_refl s
  | vslice t a => exact outExt_refl s
  | varray t a => exact outExt_refl s
  | vmap t a => exact outExt_refl s
  | vstruct t a => exact outExt_refl s
  | viface t a => exact outExt_refl s
  | vchan t a => exact outExt_refl s
  | vfunc t a => exact outExt_refl s
  | vuptr t a => exact outExt_refl s

/-- A fold whose steps only append only appends. -/
theorem foldl_outExt {α : Type} (f : PState → α → PState)
    (h : ∀ st a, OutExt st (f st a)) : ∀ (l : List α) (s : PState), OutExt s (l.foldl f s)
  | [], s => outExt_refl s
  | a :: l, s => outExt_trans (h s a) (foldl_outExt f h l (f s a))

/-- The line prefix only appends. -/
theorem printPrefix_outExt (s : PState) : OutExt s (printPrefix s) := by
  unfold printPrefix
  exact outExt_trans (printString_outExt _ _)
    (foldl_outExt _ (fun st a => printString_outExt _ _) _ _)

/-- printSeq only appends, provided each element printer only appends. -/
theorem printSeq_outExt (multiline : Bool) (n : Nat) (printElem : Nat → PState → PState)
    (s : PState) (h : ∀ i st, OutExt st (printElem i st)) :
    OutExt s (printSeq multiline n printElem s) := by
  unfold printSeq
  have hstep1 : ∀ (st : PState) (i : Nat),
      OutExt st (printString "," (printElem i (printPrefix st))) := by
    intro st i
    exact outExt_trans (printPrefix_outExt st)
      (outExt_trans (h i _) (printString_outExt _ _))
  have hstep2 : ∀ (st : PState) (i : Nat),
      OutExt st (printElem i (if 0 < i then printString ", " st else st)) := by
    intro st i
    by_cases hi : 0 < i
    · simp only [hi, if_true, ite_true]
      exact outExt_trans (printString_outExt _ _) (h i _)
    · simp only [hi]
      simp only [if_false, ite_false]
      exact h i st
  split
  · dsimp only
    generalize hq0 : printString "\x7b" s = s0
    have hs0 : OutExt s s0 := hq0 ▸ printString_outExt _ _
    have h1 : OutExt s0 { s0 with tabDepth := s0.tabDepth + 1 } := outExt_of_out_eq rfl
    have h2 : OutExt { s0 with tabDepth := s0.tabDepth + 1 }
        (List.foldl (fun st i => printString "," (printElem i (printPrefix st)))
          { s0 with tabDepth := s0.tabDepth + 1 } (List.range n)) :=
      foldl_outExt _ hstep1 _ _
    generalize hq2 : List.foldl (fun st i => printString "," (printElem i (printPrefix st)))
      { s0 with tabDepth := s0.tabDepth + 1 } (List.range n) = s2 at h2 ⊢
    have h3 : OutExt s2 { s2 with tabDepth := s2.tabDepth - 1 } := outExt_of_out_eq rfl
    have h4 : OutExt { s2 with tabDepth := s2.tabDepth - 1 }
        (printPrefix { s2 with tabDepth := s2.tabDepth - 1 }) := printPrefix_outExt _
    have h5 := printString_outExt "\x7d" (printPrefix { s2 with tabDepth := s2.tabDepth - 1 })
    exact outExt_trans hs0 (outExt_trans h1 (outExt_trans h2 (outExt_trans h3 (outExt_trans h4 h5))))
  · dsimp only
    generalize hq0 : printString "\x7b" s = s0
    have hs0 : OutExt s s0 := hq0 ▸ printString_outExt _ _
    refine outExt_trans hs0 (outExt_trans (foldl_outExt _ hstep2 (List.range n) s0) ?_)
    exact printString_outExt _ _

/-- printSeq starting from the opening brace: the rest of the sequence only
appends to the sink after the brace is written. -/
theorem printSeq_outExt_from_brace (multiline : Bool) (n : Nat)
    (printElem : Nat → PState → PState) (s : PState)
    (h : ∀ i st, OutExt st (printElem i st)) :
    OutExt (printString "\x7b" s) (printSeq multiline n printElem s) := by
  unfold printSeq
  have hstep1 : ∀ (st : PState) (i : Nat),
      OutExt st (printString "," (printElem i (printPrefix st))) := by
    intro st i
    exact outExt_trans (printPrefix_outExt st)
      (outExt_trans (h i _) (printString_outExt _ _))
  have hstep2 : ∀ (st : PState) (i : Nat),
      OutExt st (printElem i (if 0 < i then printString ", " st else st)) := by
    intro st i
    by_cases hi : 0 < i
    · simp only [hi, if_true, ite_true]
      exact outExt_trans (printString_outExt _ _) (h i _)
    · simp only [hi]
      simp only [if_false, ite_false]
      exact h i st
  split
  · dsimp only
    generalize hq0 : printString "\x7b" s = s0
    have h1 : OutExt s0 { s0 with tabDepth := s0.tabDepth + 1 } := outExt_of_out_eq rfl
    have h2 : OutExt { s0 with tabDepth := s0.tabDepth + 1 }
        (List.foldl (fun st i => printString "," (printElem i (printPrefix st)))
          { s0 with tabDepth := s0.tabDepth + 1 } (List.range n)) :=
      foldl_outExt _ hstep1 _ _
    generalize hq2 : List.foldl (fun st i => printString "," (printElem i (printPrefix st)))
      { s0 with tabDepth := s0.tabDepth + 1 } (List.range n) = s2 at h2 ⊢
    have h3 : OutExt s2 { s2 with tabDepth := s2.tabDepth - 1 } := outExt_of_out_eq rfl
    have h4 : OutExt { s2 with tabDepth := s2.tabDepth - 1 }
        (printPrefix { s2 with tabDepth := s2.tabDepth - 1 }) := printPrefix_outExt _
    have h5 := printString_outExt "\x7d" (printPrefix { s2 with tabDepth := s2.tabDepth - 1 })
    exact outExt_trans h1 (outExt_trans h2 (outExt_trans h3 (outExt_trans h4 h5)))
  · dsimp only
    generalize hq0 : printString "\x7b" s = s0
    exact outExt_trans (foldl_outExt _ hstep2 (List.range n) s0) (printString_outExt _ _)

/-- On an error-free state, printSeq writes the opening brace first: its
whole output is the previous sink contents, the brace, then a remainder. -/
theorem printSeq_out_brace (multiline : Bool) (n : Nat)
    (printElem : Nat → PState → PState) (s : PState)
    (h : ∀ i st, OutExt st (printElem i st)) (herr : s.err = none) :
    ∃ rest, (printSeq multiline n printElem s).out = s.out ++ "\x7b" ++ rest := by
  obtain ⟨r, hr⟩ := printSeq_outExt_from_brace multiline n printElem s h
  refine ⟨r, ?_⟩
  rw [hr]
  simp [printString, herr]

/-- All printing functions only append to the sink. -/
theorem print_outExt_all : ∀ (fuel : Nat) (p : Printer) (heap : Heap),
    (∀ v imputedType elide s, OutExt s (print p heap fuel v imputedType elide s))
    ∧ (∀ v imputedType elide s, OutExt s (printPtr p heap fuel v imputedType elide s))
    ∧ (∀ v imputedType elide s, OutExt s (printSliceOrArray p heap fuel v imputedType elide s))
    ∧ (∀ v imputedType elide s, OutExt s (printMap p heap fuel v imputedType elide s))
    ∧ (∀ v imputedType elide s, OutExt s (printStruct p heap fuel v imputedType elide s)) := by
  intro fuel
  induction fuel with
  | zero =>
      intro p heap
      refine ⟨?_, ?_, ?_, ?_, ?_⟩ <;> intro v imputedType elide s
      · unfold print
        split
        · exact outExt_refl s
        · split
          · exact outExt_of_out_eq rfl
          · exact outExt_refl s
      all_goals
        first
        | (unfold printPtr; exact outExt_refl s)
        | (unfold printSliceOrArray; exact outExt_refl s)
        | (unfold printMap; exact outExt_refl s)
        | (unfold printStruct; exact outExt_refl s)
  | succ f ih =>
      intro p heap
      obtain ⟨ihp, ihptr, ihsl, ihm, ihst⟩ := ih p heap
      have key : ∀ (s r : PState), OutExt { s with depth := s.depth + 1 } r →
          OutExt s { r with depth := s.depth } := by
        intro s r hr
        exact outExt_trans (outExt_of_out_eq rfl) (outExt_trans hr (outExt_of_out_eq rfl))
      have hprint : ∀ v imputedType elide s,
          OutExt s (print p heap (f + 1) v imputedType elide s) := by
        intro v imputedType elide s
        unfold print
        split
        · exact outExt_refl s
        · split
          · exact outExt_of_out_eq rfl
          · apply key
            split
            · exact printString_outExt _ _
            · split
              · split
                · exact outExt_of_out_eq rfl
                · exact printString_outExt _ _
              · split
                · exact outExt_refl _
                · exact printPrimitiveLiteral_outExt _ _ _ _
                · exact printPrimitiveLiteral_outExt _ _ _ _
                · exact printPrimitiveLiteral_outExt _ _ _ _
                · exact printPrimitiveLiteral_outExt _ _ _ _
                · exact printFloat_outExt _ _ _ _
                · exact printComplex_outExt _ _ _ _
                · exact ihptr _ _ _ _
                · exact ihp _ _ _ _
                · exact ihsl _ _ _ _
                · exact ihsl _ _ _ _
                · exact ihm _ _ _ _
                · exact ihst _ _ _ _
                · exact outExt_of_out_eq rfl
                · exact outExt_of_out_eq rfl
                · exact outExt_of_out_eq rfl
      refine ⟨hprint, ?_, ?_, ?_, ?_⟩
      · -- printPtr
        intro v imputedType elide s
        unfold printPtr
        have hnil := printIfNil_outExt p v imputedType s
        rcases hni : printIfNil p v imputedType s with ⟨b, s0⟩
        rw [hni] at hnil
        simp only at hnil
        cases b
        · dsimp only
          split
          · have ho := sprintType_out (match v with
              | .vptr _ (some a) => heap.getD a RValue.invalid
              | _ => RValue.invalid).typeOf p s0
            rcases hsp : sprintType p (match v with
              | .vptr _ (some a) => heap.getD a RValue.invalid
              | _ => RValue.invalid).typeOf s0 with ⟨ts, s1⟩
            rw [hsp] at ho
            rw [hsp]
            simp only at ho
            dsimp only
            exact outExt_trans hnil
              (outExt_trans (outExt_of_out_eq ho) (printString_outExt _ _))
          · split
            · exact outExt_trans hnil (ihp _ _ _ _)
            · exact outExt_trans hnil
                (outExt_trans (printString_outExt _ _) (ihp _ _ _ _))
        · dsimp only
          exact hnil
      · -- printSliceOrArray
        intro v imputedType elide s
        unfold printSliceOrArray
        have hnil := printIfNil_outExt p v imputedType s
        rcases hni : printIfNil p v imputedType s with ⟨b, s0⟩
        rw [hni] at hnil
        simp only at hnil
        cases b
        · dsimp only
          have hts : OutExt s0 (if elide && typesEqOpt v.typeOf imputedType then ("", s0)
              else sprintType p v.typeOf s0).2 := by
            by_cases hc : (elide && typesEqOpt v.typeOf imputedType) = true
            · rw [if_pos hc]
              exact outExt_refl s0
            · rw [if_neg hc]
              exact outExt_of_out_eq (sprintType_out v.typeOf p s0)
          rcases hcase : (if elide && typesEqOpt v.typeOf imputedType then ("", s0)
              else sprintType p v.typeOf s0) with ⟨ts, s1⟩
          rw [hcase] at hts
          simp only at hts
          dsimp only
          refine outExt_trans hnil (outExt_trans hts ?_)
          refine outExt_trans (printString_outExt ts s1) ?_
          exact printSeq_outExt _ _ _ _ (fun i st => ihp _ _ _ _)
        · dsimp only
          exact hnil
      · -- printMap
        intro v imputedType elide s
        unfold printMap
        have hnil := printIfNil_outExt p v imputedType s
        rcases hni : printIfNil p v imputedType s with ⟨b, s0⟩
        rw [hni] at hnil
        simp only at hnil
        cases b
        · dsimp only
          have hts : OutExt s0 (if elide && typesEqOpt v.typeOf imputedType then ("", s0)
              else sprintType p v.typeOf s0).2 := by
            by_cases hc : (elide && typesEqOpt v.typeOf imputedType) = true
            · rw [if_pos hc]
              exact outExt_refl s0
            · rw [if_neg hc]
              exact outExt_of_out_eq (sprintType_out v.typeOf p s0)
          rcases hcase : (if elide && typesEqOpt v.typeOf imputedType then ("", s0)
              else sprintType p v.typeOf s0) with ⟨ts, s1⟩
          rw [hcase] at hts
          simp only at hts
          dsimp only
          refine outExt_trans hnil (outExt_trans hts ?_)
          refine outExt_trans (printString_outExt ts s1) ?_
          refine printSeq_outExt _ _ _ _ (fun i st => ?_)
          exact outExt_trans (ihp _ _ _ _)
            (outExt_trans (printString_outExt _ _) (ihp _ _ _ _))
        · dsimp only
          exact hnil
      · -- printStruct
        intro v imputedType elide s
        unfold printStruct
        dsimp only
        split
        · exact outExt_of_out_eq rfl
        · have hs1 : OutExt s (if !(elide && typesEqOpt v.typeOf imputedType) then
              (match sprintType p v.typeOf s with
               | (ts, s2) => printString ts s2)
              else s) := by
            by_cases hc : (!(elide && typesEqOpt v.typeOf imputedType)) = true
            · rw [if_pos hc]
              have ho := sprintType_out v.typeOf p s
              rcases hsp : sprintType p v.typeOf s with ⟨ts, s2⟩
              rw [hsp] at ho
              simp only at ho
              exact outExt_trans (outExt_of_out_eq ho) (printString_outExt _ _)
            · rw [if_neg hc]
              exact outExt_refl s
          refine outExt_trans hs1 ?_
          refine printSeq_outExt _ _ _ _ (fun i st => ?_)
          exact outExt_trans (printString_outExt _ _) (ihp _ _ _ _)

/-! ## Sorting lemmas for the map-key order -/

/-- insertRev produces a permutation of consing the element. -/
theorem insertRev_perm {α : Type} (less : α → α → Bool) (a : α) :
    ∀ (l : List α), (insertRev less a l).Perm (a :: l)
  | [] => List.Perm.refl _
  | b :: rest => by
      unfold insertRev
      split
      · exact ((insertRev_perm less a rest).cons b).trans (List.Perm.swap a b rest)
      · exact List.Perm.refl _

/-- The insertion fold produces a permutation of the input prepended to the
accumulator. -/
theorem sortAux_perm {α : Type} (less : α → α → Bool) :
    ∀ (l acc : List α),
      (l.foldl (fun accRev x => insertRev less x accRev) acc).Perm (l ++ acc)
  | [], acc => by simp
  | a :: l, acc => by
      simp only [List.foldl_cons]
      refine (sortAux_perm less l (insertRev less a acc)).trans ?_
      refine (List.Perm.append_left l (insertRev_perm less a acc)).trans ?_
      exact List.perm_middle

/-- sortSlice permutes its input. -/
theorem sortSlice_perm {α : Type} (less : α → α → Bool) (l : List α) :
    (sortSlice less l).Perm l := by
  unfold sortSlice
  refine (List.reverse_perm _).trans ?_
  simpa using sortAux_perm less l []

/-- Inserting an element of K into a descending accumulator over K keeps it
descending, given asymmetry and negative transitivity on K. -/
theorem insertRev_sorted {less : RValue → RValue → Bool} {K : List RValue}
    (hasym : ∀ a ∈ K, ∀ b ∈ K, less a b = true → less b a = false)
    (htrans : ∀ a ∈ K, ∀ b ∈ K, ∀ c ∈ K,
      less a b = false → less b c = false → less a c = false)
    (a : RValue) (ha : a ∈ K) :
    ∀ (acc : List RValue), (∀ x ∈ acc, x ∈ K) →
      acc.Pairwise (fun x y => less x y = false) →
      (insertRev less a acc).Pairwise (fun x y => less x y = false)
  | [], _, _ => by simp [insertRev]
  | b :: rest, hmem, hsorted => by
      unfold insertRev
      have hb : b ∈ K := hmem b (List.mem_cons_self b rest)
      have hrest : ∀ x ∈ rest, x ∈ K := fun x hx => hmem x (List.mem_cons_of_mem b hx)
      obtain ⟨hbrest, hsrest⟩ := List.pairwise_cons.mp hsorted
      split
      case isTrue hab =>
        refine List.pairwise_cons.mpr ⟨?_, ?_⟩
        · intro x hx
          have hx' := (insertRev_perm less a rest).mem_iff.mp hx
          rcases List.mem_cons.mp hx' with hxa | hxr
          · subst hxa
            exact hasym x ha b hb hab
          · exact hbrest x hxr
        · exact insertRev_sorted hasym htrans a ha rest hrest hsrest
      case isFalse hab =>
        have hab' : less a b = false := by
          revert hab
          cases less a b <;> simp
        refine List.pairwise_cons.mpr ⟨?_, hsorted⟩
        intro x hx
        rcases List.mem_cons.mp hx with hxb | hxr
        · subst hxb
          exact hab'
        · exact htrans a ha b hb x (hrest x hxr) hab' (hbrest x hxr)

/-- The insertion fold keeps the accumulator descending when all elements are
drawn from K. -/
theorem sortAux_sorted {less : RValue → RValue → Bool} {K : List RValue}
    (hasym : ∀ a ∈ K, ∀ b ∈ K, less a b = true → less b a = false)
    (htrans : ∀ a ∈ K, ∀ b ∈ K, ∀ c ∈ K,
      less a b = false → less b c = false → less a c = false) :
    ∀ (l acc : List RValue), (∀ x ∈ l, x ∈ K) → (∀ x ∈ acc, x ∈ K) →
      acc.Pairwise (fun x y => less x y = false) →
      (l.foldl (fun accRev x => insertRev less x accRev) acc).Pairwise
        (fun x y => less x y = false)
  | [], acc, _, _, hsorted => hsorted
  | a :: l, acc, hl, hacc, hsorted => by
      simp only [List.foldl_cons]
      have ha : a ∈ K := hl a (List.mem_cons_self a l)
      refine sortAux_sorted hasym htrans l (insertRev less a acc)
        (fun x hx => hl x (List.mem_cons_of_mem a hx)) ?_ ?_
      · intro x hx
        rcases List.mem_cons.mp ((insertRev_perm less a acc).mem_iff.mp hx) with hxa | hxr
        · exact hxa ▸ ha
        · exact hacc x hxr
      · exact insertRev_sorted hasym htrans a ha acc hacc hsorted

/-- sortSlice yields a list that is ascending with respect to the negation of
less in the reverse direction. -/
theorem sortSlice_sorted {less : RValue → RValue → Bool} {K : List RValue}
    (hasym : ∀ a ∈ K, ∀ b ∈ K, less a b = true → less b a = false)
    (htrans : ∀ a ∈ K, ∀ b ∈ K, ∀ c ∈ K,
      less a b = false → less b c = false → less a c = false)
    (l : List RValue) (hl : ∀ x ∈ l, x ∈ K) :
    (sortSlice less l).Pairwise (fun x y => less y x = false) := by
  unfold sortSlice
  rw [List.pairwise_reverse]
  exact sortAux_sorted hasym htrans l [] hl (by simp) (by simp)

/-- Two sorted permutations are equal when the order is antisymmetric on the
first list. -/
theorem sorted_perm_unique (R : RValue → RValue → Prop) :
    ∀ (l1 l2 : List RValue), l1.Perm l2 → l1.Pairwise R → l2.Pairwise R →
      (∀ a ∈ l1, ∀ b ∈ l1, R a b → R b a → a = b) → l1 = l2
  | [], l2, hp, _, _, _ => hp.nil_eq
  | a :: l1, [], hp, _, _, _ => by
      exact absurd hp.symm.nil_eq (by simp)
  | a :: l1, b :: l2, hp, h1, h2, hanti => by
      have hab : a = b := by
        by_contra hab
        have hbmem : b ∈ a :: l1 := hp.symm.subset (List.mem_cons_self b l2)
        have hamem : a ∈ b :: l2 := hp.subset (List.mem_cons_self a l1)
        have hb1 : b ∈ l1 := by
          rcases List.mem_cons.mp hbmem with h | h
          · exact absurd h.symm hab
          · exact h
        have ha2 : a ∈ l2 := by
          rcases List.mem_cons.mp hamem with h | h
          · exact absurd h hab
          · exact h
        have hRab : R a b := (List.pairwise_cons.mp h1).1 b hb1
        have hRba : R b a := (List.pairwise_cons.mp h2).1 a ha2
        exact hab (hanti a (List.mem_cons_self a l1) b hbmem hRab hRba)
      subst hab
      have htail := sorted_perm_unique R l1 l2 hp.cons_inv
        (List.pairwise_cons.mp h1).2 (List.pairwise_cons.mp h2).2
        (fun x hx y hy => hanti x (List.mem_cons_of_mem a hx)
          y (List.mem_cons_of_mem a hy))
      rw [htail]

/-- Sorting is invariant under permutation of the input when less is a strict
weak order that is total on the keys. -/
theorem sortSlice_eq_of_perm {less : RValue → RValue → Bool}
    (K1 K2 : List RValue) (hperm : K1.Perm K2)
    (hasym : ∀ a ∈ K1, ∀ b ∈ K1, less a b = true → less b a = false)
    (htotal : ∀ a ∈ K1, ∀ b ∈ K1, less a b = false → less b a = false → a = b)
    (htrans : ∀ a ∈ K1, ∀ b ∈ K1, ∀ c ∈ K1,
      less a b = false → less b c = false → less a c = false) :
    sortSlice less K1 = sortSlice less K2 := by
  have hmem2 : ∀ x ∈ K2, x ∈ K1 := fun x hx => hperm.symm.subset hx
  refine sorted_perm_unique (fun x y => less y x = false) _ _
    (((sortSlice_perm less K1).trans hperm).trans (sortSlice_perm less K2).symm)
    (sortSlice_sorted hasym htrans K1 (fun x hx => hx))
    (sortSlice_sorted hasym htrans K2 hmem2) ?_
  · intro a ha b hb hba hab
    have ha1 : a ∈ K1 := (sortSlice_perm less K1).subset ha
    have hb1 : b ∈ K1 := (sortSlice_perm less K1).subset hb
    exact htotal a ha1 b hb1 hab hba

/-- find? is the head of the filtered list. -/
theorem find_eq_head_filter {α : Type} (f : α → Bool) :
    ∀ (l : List α), l.find? f = (l.filter f).head?
  | [] => rfl
  | a :: l => by
      by_cases h : f a = true
      · rw [List.find?_cons_of_pos _ h, List.filter_cons_of_pos h]
        rfl
      · rw [List.find?_cons_of_neg _ (by simpa using h),
          List.filter_cons_of_neg (by simpa using h)]
        exact find_eq_head_filter f l

/-- Filtering is permutation-invariant when at most one element matches. -/
theorem filter_perm_eq {α : Type} {f : α → Bool} {l1 l2 : List α}
    (hperm : l1.Perm l2) (hlen : (l1.filter f).length ≤ 1) :
    l1.filter f = l2.filter f := by
  have hp := hperm.filter f
  cases h1 : l1.filter f with
  | nil =>
      rw [h1] at hp
      exact hp.nil_eq
  | cons x xs =>
      cases xs with
      | nil =>
          rw [h1] at hp
          exact (List.perm_singleton.mp hp.symm).symm
      | cons y rest =>
          rw [h1] at hlen
          simp at hlen

/-- Nothing is Go-equal to the invalid value. -/
theorem goEq_invalid : ∀ (v : RValue), goEq v .invalid = false := by
  intro v
  cases v <;> try rfl
  rename_i t inner
  cases inner <;> rfl

/-- mapIndex is permutation-invariant for keys with at most one goEq match,
and for the invalid key. -/
theorem mapIndex_perm_of_uniq {e1 e2 : List (RValue × RValue)}
    (hperm : e1.Perm e2) (k : RValue)
    (huniq : (e1.filter (fun e => goEq e.1 k)).length ≤ 1) :
    mapIndex e1 k = mapIndex e2 k := by
  unfold mapIndex
  rw [find_eq_head_filter, find_eq_head_filter, filter_perm_eq hperm huniq]

/-- mapIndex at the invalid key is invalid. -/
theorem mapIndex_invalid (e : List (RValue × RValue)) :
    mapIndex e .invalid = .invalid := by
  unfold mapIndex
  rw [find_eq_head_filter]
  have : e.filter (fun en => goEq en.1 .invalid) = [] := by
    refine List.filter_eq_nil_iff.mpr ?_
    intro a _
    simp [goEq_invalid]
  rw [this]
  rfl

/-! ## Claim C5: elision of the element type name in sequences -/

/-- Claim C5, counterexample: for the recursive record type A (one pointer
field of type *A), emitting a one-element slice []A produces an element
whose text contains the record type name again (the nested `&A{}`), so the
name is repeated inside an element even though the element itself is
elided. -/
theorem claim_C5_counterexample :
    Printer.Sprint pHome [zeroA] (.vslice tSliceA (some [someA])) =
      ("[]A\x7b\n\t\x7bP: &A\x7b\x7d\x7d,\n\x7d", none)
    ∧ occurrences "A" ((print pHome [zeroA] 20 someA (some tA) true ⟨none, "", 2, 1⟩).out) = 1
    ∧ (print pHome [zeroA] 20 someA (some tA) true ⟨none, "", 2, 1⟩).out =
        "\x7bP: &A\x7b\x7d\x7d" := by
  refine ⟨by decide, by decide, by decide⟩

/-- Claim C5, amended: an element position (elision permitted, imputed type
equal to the element's struct type, no custom printer) never emits the
record type name at its top level: the element's contribution to the sink
either is empty (an error case) or opens with the brace of the bare
literal.  The name may still occur nested inside the element, as the
counterexample shows. -/
theorem claim_C5_amended (p : Printer) (heap : Heap) (fuel : Nat) (v : RValue) (t : RType)
    (fields : List RValue) (imputedType : Option RType) (s : PState)
    (hv : v = .vstruct t fields)
    (hcp : lookupPrinter p t = none)
    (himp : typesEqOpt t imputedType = true)
    (herr : s.err = none)
    (hdepth : s.depth ≤ maxDepth) :
    (print p heap fuel v imputedType true s).out = s.out ∨
    ∃ rest, (print p heap fuel v imputedType true s).out = s.out ++ "\x7b" ++ rest := by
  subst hv
  have hnd : ¬ s.depth > maxDepth := by omega
  match fuel with
  | 0 =>
      left
      unfold print
      simp [herr, hnd]
  | 1 =>
      left
      unfold print
      simp only [herr, hnd, RValue.isValid, RValue.typeOf, hcp, ne_eq, not_false_eq_true,
        reduceCtorEq, not_true_eq_false, Bool.not_true, if_false, ite_false,
        Bool.false_eq_true, if_neg, not_false_iff]
      unfold printStruct
      rfl
  | fuel + 2 =>
      unfold print
      simp only [herr, hnd, RValue.isValid, RValue.typeOf, hcp, ne_eq, not_false_eq_true,
        reduceCtorEq, not_true_eq_false, Bool.not_true, if_false, ite_false,
        Bool.false_eq_true, if_neg, not_false_iff]
      unfold printStruct
      simp only [RValue.typeOf, RValue.fieldsOf, himp, Bool.and_self, Bool.not_true,
        Bool.false_eq_true, if_false, ite_false, Bool.true_and]
      split
      · left
        rfl
      · right
        exact printSeq_out_brace _ _ _ _
          (fun i st => outExt_trans (printString_outExt _ _)
            ((print_outExt_all fuel p heap).1 _ _ _ _)) rfl

/-- Witness for the amended claim C5 at a concrete elided element. -/
theorem claim_C5_witness :
    (print pHome [zeroA] 20 someA (some tA) true ⟨none, "", 2, 1⟩).out = "" ∨
    ∃ rest, (print pHome [zeroA] 20 someA (some tA) true ⟨none, "", 2, 1⟩).out =
      "" ++ "\x7b" ++ rest := by
  have h := claim_C5_amended pHome [zeroA] 20 someA tA
    [.vptr (.ptr (.iface "" "" 0) "" "") (some 0)] (some tA) ⟨none, "", 2, 1⟩ rfl rfl
    (by decide) rfl (by decide)
  simpa using h

/-! ## Claim C6: determinism of map emission -/

/-- oneLineValue of a map value is invariant under permutation of the entry
list. -/
theorem oneLineValue_vmap_perm (t : RType) {e1 e2 : List (RValue × RValue)}
    (hperm : e1.Perm e2) :
    oneLineValue (.vmap t (some e1)) = oneLineValue (.vmap t (some e2)) := by
  cases e1 with
  | nil => rw [← hperm.nil_eq]
  | cons x xs =>
    cases xs with
    | nil => rw [List.perm_singleton.mp hperm.symm]
    | cons y ys =>
      cases e2 with
      | nil => exact absurd hperm.symm.nil_eq (by simp)
      | cons x2 xs2 =>
        cases xs2 with
        | nil =>
            have h := hperm.length_eq
            simp at h
        | cons y2 ys2 =>
            have hlen : ys.length = ys2.length := by
              have h := hperm.length_eq
              simpa using h
            obtain ⟨k0, v0⟩ := x
            obtain ⟨k2, v2⟩ := x2
            unfold oneLineValue
            simp [isZero, hlen, RValue.typeOf]

/-- Claim C6, counterexample: float64 is a float kind, so a less function
for it is derivable, yet a map with a NaN key is not printed
deterministically: the two enumeration orders of the same two-entry map
value (a permutation) yield different text, because NaN is unordered under
the derived less function and the sort cannot move it.  (The NaN entry also
prints as `nil` because MapIndex cannot find a NaN key again; both texts
are produced without error.) -/
theorem claim_C6_counterexample :
    (Printer.getLessFunc pHome tMapFI.keyType).isSome = true ∧
    ([(nanKey, intOne), (oneKey, intOne)] : List (RValue × RValue)).Perm
      [(oneKey, intOne), (nanKey, intOne)] ∧
    Printer.Sprint pHome [] (.vmap tMapFI (some [(nanKey, intOne), (oneKey, intOne)])) =
      ("map[float64]int\x7bmath.NaN(): nil, 1.0: 1\x7d", none) ∧
    Printer.Sprint pHome [] (.vmap tMapFI (some [(oneKey, intOne), (nanKey, intOne)])) =
      ("map[float64]int\x7b1.0: 1, math.NaN(): nil\x7d", none) := by
  exact ⟨rfl, List.Perm.swap _ _ _, by decide, by decide⟩

/-- Claim C6, amended: two emission calls on the same Printer for the same
map value under two enumeration orders (a permutation of the entry list)
produce identical results, provided the key type has a registered or
derivable less function that is asymmetric, negatively transitive and
total on the keys (this excludes NaN keys, which are unordered), and each
key matches at most one entry under Go == (this excludes multiple-NaN
pathologies, a documented known issue).  Under these hypotheses the keys
are sorted into a unique order before emission, so both Fprint and Sprint
return byte-identical text. -/
theorem claim_C6_amended (p : Printer) (heap : Heap) (t : RType)
    (e1 e2 : List (RValue × RValue)) (less : LessFunc)
    (hperm : e1.Perm e2)
    (hless : p.getLessFunc t.keyType = some less)
    (hcp : lookupPrinter p t = none)
    (hasym : ∀ a ∈ e1.map Prod.fst, ∀ b ∈ e1.map Prod.fst,
      less a b = true → less b a = false)
    (htotal : ∀ a ∈ e1.map Prod.fst, ∀ b ∈ e1.map Prod.fst,
      less a b = false → less b a = false → a = b)
    (htrans : ∀ a ∈ e1.map Prod.fst, ∀ b ∈ e1.map Prod.fst, ∀ c ∈ e1.map Prod.fst,
      less a b = false → less b c = false → less a c = false)
    (huniq : ∀ k ∈ e1.map Prod.fst,
      (e1.filter (fun en => goEq en.1 k)).length ≤ 1) :
    Printer.Fprint p heap (.vmap t (some e1)) = Printer.Fprint p heap (.vmap t (some e2)) ∧
    Printer.Sprint p heap (.vmap t (some e1)) = Printer.Sprint p heap (.vmap t (some e2)) := by
  have hkeysperm : (e1.map Prod.fst).Perm (e2.map Prod.fst) := hperm.map Prod.fst
  have hsorted : sortSlice less (e1.map Prod.fst) = sortSlice less (e2.map Prod.fst) :=
    sortSlice_eq_of_perm _ _ hkeysperm hasym htotal htrans
  have holv : oneLineValue (.vmap t (some e1)) = oneLineValue (.vmap t (some e2)) :=
    oneLineValue_vmap_perm t hperm
  have hkey : ∀ i : Nat,
      mapIndex e1 ((sortSlice less (e2.map Prod.fst)).getD i .invalid) =
      mapIndex e2 ((sortSlice less (e2.map Prod.fst)).getD i .invalid) := by
    intro i
    by_cases hi : i < (sortSlice less (e2.map Prod.fst)).length
    · have hmem : (sortSlice less (e2.map Prod.fst)).getD i .invalid
          ∈ sortSlice less (e2.map Prod.fst) := by
        rw [List.getD_eq_getElem _ _ hi]
        exact List.getElem_mem _
      have hmem1 : (sortSlice less (e2.map Prod.fst)).getD i .invalid ∈ e1.map Prod.fst :=
        hkeysperm.symm.subset ((sortSlice_perm less _).subset hmem)
      exact mapIndex_perm_of_uniq hperm _ (huniq _ hmem1)
    · rw [List.getD_eq_default _ _ (Nat.le_of_not_lt hi), mapIndex_invalid, mapIndex_invalid]
  have hpm : ∀ fuel imputedType elide s,
      printMap p heap fuel (.vmap t (some e1)) imputedType elide s =
      printMap p heap fuel (.vmap t (some e2)) imputedType elide s := by
    intro fuel imputedType elide s
    cases fuel with
    | zero => rfl
    | succ fuel =>
      conv_lhs => unfold printMap
      conv_rhs => unfold printMap
      simp only [printIfNil, RValue.isNilV, RValue.typeOf, RValue.entriesOf,
        Bool.false_eq_true, if_false, hless, hsorted, holv]
      congr 1
      funext i st
      dsimp only
      rw [hkey i]
  have hmain : ∀ fuel imputedType elide s,
      print p heap fuel (.vmap t (some e1)) imputedType elide s =
      print p heap fuel (.vmap t (some e2)) imputedType elide s := by
    intro fuel imputedType elide s
    cases fuel with
    | zero => rfl
    | succ fuel =>
      conv_lhs => unfold print
      conv_rhs => unfold print
      simp only [RValue.isValid, RValue.typeOf, hcp, Bool.not_true, Bool.false_eq_true,
        if_false, hpm]
  have hF : Printer.Fprint p heap (.vmap t (some e1)) =
      Printer.Fprint p heap (.vmap t (some e2)) := by
    unfold Printer.Fprint
    rw [hmain]
  refine ⟨hF, ?_⟩
  unfold Printer.Sprint
  rw [hF]

/-- Witness for the amended claim C6: the map[int]int value with entries
2 ↦ 20 and 1 ↦ 10 under its two enumeration orders. -/
theorem claim_C6_witness :
    Printer.Fprint pHome []
        (.vmap tMapII (some [(.vint tInt 2, .vint tInt 20), (.vint tInt 1, .vint tInt 10)])) =
      Printer.Fprint pHome []
        (.vmap tMapII (some [(.vint tInt 1, .vint tInt 10), (.vint tInt 2, .vint tInt 20)])) ∧
    Printer.Sprint pHome []
        (.vmap tMapII (some [(.vint tInt 2, .vint tInt 20), (.vint tInt 1, .vint tInt 10)])) =
      Printer.Sprint pHome []
        (.vmap tMapII (some [(.vint tInt 1, .vint tInt 10), (.vint tInt 2, .vint tInt 20)])) := by
  refine claim_C6_amended pHome [] tMapII
    [(.vint tInt 2, .vint tInt 20), (.vint tInt 1, .vint tInt 10)]
    [(.vint tInt 1, .vint tInt 10), (.vint tInt 2, .vint tInt 20)]
    (fun v1 v2 => decide (v1.intVal < v2.intVal))
    (List.Perm.swap _ _ _) rfl rfl (by decide) ?_ (by decide) (by decide)
  intro a ha b hb hab hba
  simp only [List.map_cons, List.map_nil, List.mem_cons, List.not_mem_nil, or_false] at ha hb
  rcases ha with rfl | rfl <;> rcases hb with rfl | rfl
  · rfl
  · exact absurd hba (by decide)
  · exact absurd hab (by decide)
  · rfl


end Printsrc

